import Mathlib

/-!
Verification development for the script-to-video generation pipeline.

The definitions below are shallow embeddings of the server-side pipeline
code: the duration policy (`durationPolicy.ts`), audio measurement
(`audioUtils.ts`), freeze-frame extension (`videoUtils.ts`), the caption
segmenter (`subtitleUtils.ts`), the TTS fallback chain and the job
orchestrator (`videoProcessor.ts`).  Fractional seconds are modelled as
rationals, JavaScript strings as lists of characters, and the stateful
orchestrator as explicit state passing plus a labelled transition system
for the queue.
-/

namespace VideoGen

/-! ### Duration policy (durationPolicy.ts)

JavaScript `Math.round` rounds half away from zero; for the nonnegative
durations used here this is `⌊x + 1/2⌋`.  `decideSoraDuration` first rounds
the measured duration to one decimal (`Math.round (d * 10) / 10`) and picks
the clip tier from the rounded value. -/

/-- JavaScript `Math.round` for nonnegative inputs: round half up. -/
def jsRound (x : ℚ) : ℤ := ⌊x + 1/2⌋

/-- `Math.round (x * 10) / 10`: x rounded to one decimal place. -/
def round10 (x : ℚ) : ℚ := (jsRound (x * 10) : ℚ) / 10

/-- Result record of the duration policy (durationPolicy.ts, `DurationDecision`). -/
structure DurationDecision where
  targetDuration : ℚ
  actualDuration : ℚ
  extensionNeeded : ℚ
  shouldWarn : Bool
  warningMessage : Option String
deriving Repr, DecidableEq

/-- Embedding of `decideSoraDuration` (durationPolicy.ts lines 22-55):
round the measured duration to one decimal, pick the tier 4 / 8 / 12 from
the rounded value, and report the (unrounded) overflow past the tier. -/
def decideSoraDuration (actualDuration : ℚ) : DurationDecision :=
  let rounded := round10 actualDuration
  let targetDuration : ℚ := if rounded ≤ 4 then 4 else if rounded ≤ 8 then 8 else 12
  { targetDuration := targetDuration
    actualDuration := actualDuration
    extensionNeeded := max 0 (actualDuration - targetDuration)
    shouldWarn := decide (12 < actualDuration)
    warningMessage :=
      if 12 < actualDuration then
        some "Script is too long. Video will be extended with freeze-frame to match."
      else none }

/-- The ascending set of clip durations accepted by the video generator. -/
def soraTiers : List ℚ := [4, 8, 12]

/-! ### JavaScript string helpers

Scripts are modelled as lists of characters.  `splitWsJS` models
`s.split(/\s+/)` with the JS conventions (a leading or trailing separator
contributes an empty field; `"".split` yields `[""]`), `trim` models
`String.prototype.trim`. -/

/-- Whitespace test matching the `\s` class on the characters occurring in
scripts. -/
def isWs (c : Char) : Bool := c == ' ' || c == '\t' || c == '\n' || c == '\r'

/-- Membership in the sentence-terminating class `[.!?]`. -/
def isSentenceEnd (c : Char) : Bool := c == '.' || c == '!' || c == '?'

/-- Membership in the clause-terminating class `[,;:]`. -/
def isClauseEnd (c : Char) : Bool := c == ',' || c == ';' || c == ':'

/-- JavaScript `trim`: drop whitespace from both ends. -/
def trim (s : List Char) : List Char :=
  ((s.dropWhile isWs).reverse.dropWhile isWs).reverse

/-- Worker for `splitWsJS`: cut the input at every maximal whitespace run.
The accumulator holds the characters of the token being built (reversed);
`none` marks a position inside a separator run, whose remaining whitespace
is skipped. -/
def splitWsGo : List Char → Option (List Char) → List (List Char)
  | [], some acc => [acc.reverse]
  | [], none => [[]]
  | c :: rest, some acc =>
    if isWs c then acc.reverse :: splitWsGo rest none
    else splitWsGo rest (some (c :: acc))
  | c :: rest, none =>
    if isWs c then splitWsGo rest none
    else splitWsGo rest (some [c])

/-- JavaScript `s.split(/\s+/)`. -/
def splitWsJS (s : List Char) : List (List Char) := splitWsGo s (some [])

/-- Field count of `s.split(/\s+/)` (a word count when `s` is trimmed). -/
def wordCountJS (s : List Char) : Nat := (splitWsJS s).length

/-- Word count of `s.trim().split(/\s+/)`, the idiom used by
`estimateSpeechDuration` and the segmenters; note JS gives count 1 for a
whitespace-only string. -/
def wordCountTrim (s : List Char) : Nat := (splitWsJS (trim s)).length

/-- Embedding of `estimateSpeechDuration` (durationPolicy.ts lines 62-68):
word count over the fixed 2.5 words-per-second speaking rate, fed into the
duration policy. -/
def estimateSpeechDuration (script : List Char) : DurationDecision :=
  decideSoraDuration ((wordCountTrim script : ℚ) / (5/2))

/-! ### Audio measurement and freeze-frame extension
(audioUtils.ts `getAudioDuration`, videoUtils.ts `extendVideoToAudioLength`) -/

/-- Embedding of `getAudioDuration` (audioUtils.ts lines 49-67) applied to
an artifact whose real duration is `d`: `Math.ceil (d * 10) / 10 + 0.1`,
rounding up to the next tenth plus a tenth of a second of safety margin. -/
def getAudioDuration (d : ℚ) : ℚ := (⌈d * 10⌉ : ℚ) / 10 + 1/10

/-- Embedding of `extendVideoToAudioLength` (videoUtils.ts lines 10-63) at
the duration level: a video whose length is already at least
`targetDuration` is returned unchanged, otherwise it is freeze-frame
extended to exactly `targetDuration`. -/
def extendVideoToAudioLength (inputDuration targetDuration : ℚ) : ℚ :=
  if targetDuration ≤ inputDuration then inputDuration else targetDuration

/-! ### Caption segmenter (subtitleUtils.ts)

`splitSentences` models `script.split(/(?<=[.!?])\s+/)`: the separators
are the maximal whitespace runs directly preceded by sentence-ending
punctuation.  `splitClauses` models `sentence.split(/(?<=[,;:])\s*/)`: a
split point sits after every clause-ending character except at the very
end of the string (a JS split never matches the empty separator at the end
of the input), and the following whitespace is consumed. -/

/-- Worker for `splitSentences`.  The accumulator holds the current
sentence reversed (so its head is the previously-seen character); `none`
marks a position inside a separator whitespace run. -/
def splitSentGo : List Char → Option (List Char) → List (List Char)
  | [], some acc => [acc.reverse]
  | [], none => [[]]
  | c :: rest, some acc =>
    if isWs c && (match acc with | p :: _ => isSentenceEnd p | [] => false) then
      acc.reverse :: splitSentGo rest none
    else splitSentGo rest (some (c :: acc))
  | c :: rest, none =>
    if isWs c then splitSentGo rest none
    else splitSentGo rest (some [c])

/-- JavaScript `script.split(/(?<=[.!?])\s+/)`. -/
def splitSentences (s : List Char) : List (List Char) := splitSentGo s (some [])

/-- Worker for `splitClauses`.  A split point sits after every
clause-ending character except at the very end of the string; `none` marks
a position inside the whitespace consumed by the separator's `\s*`. -/
def splitClausesGo : List Char → Option (List Char) → List (List Char)
  | [], some acc => [acc.reverse]
  | [], none => [[]]
  | c :: rest, some acc =>
    if isClauseEnd c then
      match rest with
      | [] => [(c :: acc).reverse]
      | _ :: _ => (c :: acc).reverse :: splitClausesGo rest none
    else splitClausesGo rest (some (c :: acc))
  | c :: rest, none =>
    if isWs c then splitClausesGo rest none
    else if isClauseEnd c then
      match rest with
      | [] => [[c]]
      | _ :: _ => [c] :: splitClausesGo rest none
    else splitClausesGo rest (some [c])

/-- JavaScript `sentence.split(/(?<=[,;:])\s*/)`. -/
def splitClauses (s : List Char) : List (List Char) := splitClausesGo s (some [])

/-- Per-segment word cap (`MAX_WORDS_PER_SEGMENT`). -/
def MAX_WORDS_PER_SEGMENT : Nat := 8

/-- `currentSegment.join(" ")`. -/
def joinSpace : List (List Char) → List Char
  | [] => []
  | [x] => x
  | x :: y :: rest => x ++ ' ' :: joinSpace (y :: rest)

/-- Embedding of the clause-accumulation loop of `splitIntoSegments`
(subtitleUtils.ts lines 39-62): walk the clauses, flushing the current
accumulated segment when adding the next clause would cross the word cap,
and flushing the remainder at the end. -/
def clauseLoop : List (List Char) → List (List Char) → Nat → List (List Char)
  | [], cur, _ => if cur.isEmpty then [] else [trim (joinSpace cur)]
  | cl :: rest, cur, len =>
    let cw := wordCountTrim cl
    if MAX_WORDS_PER_SEGMENT < len + cw ∧ cur.isEmpty = false then
      trim (joinSpace cur) ::
        (if (trim cl).isEmpty then clauseLoop rest [] 0 else clauseLoop rest [trim cl] cw)
    else
      if (trim cl).isEmpty then clauseLoop rest cur len
      else clauseLoop rest (cur ++ [trim cl]) (len + cw)

/-- Contribution of one sentence to `splitIntoSegments` (subtitleUtils.ts
lines 27-63): a sentence within the word cap is kept whole (trimmed),
otherwise it is re-split on clause punctuation via `clauseLoop`. -/
def segmentsOfSentence (sentence : List Char) : List (List Char) :=
  if wordCountTrim sentence ≤ MAX_WORDS_PER_SEGMENT then
    if (trim sentence).isEmpty then [] else [trim sentence]
  else clauseLoop (splitClauses sentence) [] 0

/-- Embedding of `splitIntoSegments` (subtitleUtils.ts lines 21-67). -/
def splitIntoSegments (script : List Char) : List (List Char) :=
  (((splitSentences script).map segmentsOfSentence).flatten).filter
    (fun s => decide (0 < s.length))

/-- Leading buffer before the first caption (`startBuffer`). -/
def startBuffer : ℚ := 1/2

/-- Trailing buffer after the last caption (`endBuffer`). -/
def endBuffer : ℚ := 1/5

/-- Per-caption minimum duration before scaling (`minDuration`). -/
def minSegmentDuration : ℚ := 6/5

/-- Absolute floor applied during down-scaling (the `0.8` in line 104). -/
def minScaledDuration : ℚ := 4/5

/-- Inter-caption overlap (`overlapBuffer`, line 114). -/
def subtitleOverlap : ℚ := 1/10

/-- One timed caption (subtitleUtils.ts `SubtitleSegment`). -/
structure SubtitleSegment where
  text : List Char
  startTime : ℚ
  endTime : ℚ
deriving Repr, DecidableEq

/-- Embedding of the two duration-allocation passes of `calculateTiming`
(subtitleUtils.ts lines 79-105): proportional-to-word-count durations with
a readability minimum, scaled down uniformly (but never below the absolute
floor) when they overrun the available time. -/
def calcDurations (segments : List (List Char)) (totalDuration : ℚ) : List ℚ :=
  let wordCounts := segments.map wordCountJS
  let wordSum : Nat := wordCounts.foldl (· + ·) 0
  let totalWords : ℚ := if wordSum = 0 then 1 else (wordSum : ℚ)
  let availableDuration := max 1 (totalDuration - startBuffer - endBuffer)
  let secondsPerWord := availableDuration / totalWords
  let raw := wordCounts.map (fun wc : Nat => max minSegmentDuration ((wc : ℚ) * secondsPerWord))
  let totalRaw := raw.foldl (· + ·) (0:ℚ)
  if availableDuration < totalRaw then
    raw.map (fun dur => max minScaledDuration (dur * (availableDuration / totalRaw)))
  else raw

/-- Embedding of the sequential start/end assignment of `calculateTiming`
(subtitleUtils.ts lines 107-127). -/
def buildTimed (totalDuration : ℚ) : List (List Char × ℚ) → ℚ → List SubtitleSegment
  | [], _ => []
  | (txt, dur) :: rest, currentTime =>
    let overlapBuffer : ℚ := if rest.isEmpty then 0 else subtitleOverlap
    { text := txt
      startTime := currentTime
      endTime := min (currentTime + dur + overlapBuffer) (totalDuration - endBuffer) }
      :: buildTimed totalDuration rest (currentTime + dur)

/-- Embedding of `calculateTiming` (subtitleUtils.ts lines 73-128). -/
def calculateTiming (segments : List (List Char)) (totalDuration : ℚ) :
    List SubtitleSegment :=
  if segments.isEmpty ∨ totalDuration ≤ 0 then []
  else buildTimed totalDuration (segments.zip (calcDurations segments totalDuration)) startBuffer

/-- Embedding of `generateSubtitleFile` (subtitleUtils.ts lines 222-269) at
the level of the timed segments that would be serialized: `none` models the
code paths that skip writing a subtitle file. -/
def generateSubtitleFile (script : List Char) (audioDuration : ℚ) :
    Option (List SubtitleSegment) :=
  if (trim script).isEmpty then none
  else
    let segments := splitIntoSegments script
    if segments.isEmpty then none
    else
      let timed := calculateTiming segments audioDuration
      if timed.isEmpty then none
      else some timed

/-! ### TTS fallback chain (videoProcessor.ts `generateTTSPlaceholder`)

The orchestrator first tries Edge TTS, on failure falls back to k2-fsa,
and as a last resort synthesizes silent audio sized to the word-count
estimate.  Failures of the external providers are modelled by flags on
the job environment; what matters to the orchestrator is only which
attempts fail. -/

/-- Origin of the speech audio actually used by a job. -/
inductive TTSSource where
  | edgeTTS
  | k2fsa
  | silence
deriving DecidableEq, Repr

/-- Environment of one job execution: the submitted fields plus the
outcome of each external interaction (provider failures, the real ffprobe
duration of the synthesized speech, and upload failure). -/
structure JobEnv where
  projectId : String
  title : String
  script : List Char
  edgeTTSFails : Bool
  k2fsaFails : Bool
  ttsRealDuration : ℚ
  probeFails : Bool
  musicFails : Bool
  soraFails : Bool
  composeFails : Bool
  uploadFails : Bool
deriving Repr

/-- Providers attempted by `generateTTSPlaceholder`, in order: Edge TTS,
then (only if it failed) k2-fsa.  Silence synthesis is not a provider. -/
def ttsProvidersTried (env : JobEnv) : List TTSSource :=
  if env.edgeTTSFails then [.edgeTTS, .k2fsa] else [.edgeTTS]

/-- Audio source selected by `generateTTSPlaceholder` (videoProcessor.ts
lines 218-272): Edge TTS, else k2-fsa, else silence. -/
def ttsSource (env : JobEnv) : TTSSource :=
  if env.edgeTTSFails then (if env.k2fsaFails then .silence else .k2fsa) else .edgeTTS

/-- Real duration of the speech artifact produced by the TTS stage: the
provider's output duration, or, for the silent fallback, exactly the
`targetDuration` of the word-count estimate (videoProcessor.ts line 258). -/
def ttsFileDuration (env : JobEnv) : ℚ :=
  match ttsSource env with
  | .silence => (estimateSpeechDuration env.script).targetDuration
  | _ => env.ttsRealDuration

/-! ### Progress reporting (schema.ts `ProcessingStage`/`ProcessingStatus`,
videoProcessor.ts `updateProgress`) -/

/-- Embedding of `ProcessingStage` (schema.ts lines 198-205). -/
inductive ProcessingStage where
  | analyzing
  | generating_tts
  | generating_music
  | generating_video
  | composing
  | complete
  | error
deriving DecidableEq, Repr

/-- Embedding of `ProcessingStatus` (schema.ts lines 207-213). -/
structure ProcessingStatus where
  stage : ProcessingStage
  progress : Nat
  currentStep : String
  error : Option String
deriving DecidableEq, Repr

/-- Effects of one `updateProgress` call. -/
inductive StatusEvent where
  | persist (st : ProcessingStatus)
  | callback (st : ProcessingStatus)
deriving DecidableEq, Repr

/-- Embedding of `updateProgress` (videoProcessor.ts lines 193-211): store
the status, then invoke the registered progress callback, both before the
stage transition continues. -/
def updateProgress (st : ProcessingStatus) : List StatusEvent :=
  [.persist st, .callback st]

/-! ### Compositing (videoProcessor.ts `composeVideo`)

The audio mix is the ffmpeg filter
`[1:a][2:a]amix=inputs=2:duration=first:weights=1 0.2[audio]` built in
line 362: input 1 is the speech track, input 2 the music track, the
background video's own audio (input 0) is never mapped.  `amix` semantics:
`duration=first` ends the mix with its first input, `shortest` with the
shortest, `longest` with the longest. -/

/-- Audio streams available to the compositor. -/
inductive AudioSrc where
  | bgVideo
  | speech
  | music
deriving DecidableEq, Repr

/-- The `duration` option of ffmpeg `amix`. -/
inductive AmixDuration where
  | longest
  | shortest
  | first
deriving DecidableEq, Repr

/-- An `amix` invocation: ordered inputs, weights, duration mode. -/
structure AmixFilter where
  inputs : List AudioSrc
  weights : List ℚ
  durationMode : AmixDuration
deriving DecidableEq, Repr

/-- The audio filter built by `composeVideo` (videoProcessor.ts line 362). -/
def composeAudioFilter : AmixFilter :=
  { inputs := [.speech, .music], weights := [1, 1/5], durationMode := .first }

/-- Duration of the `amix` output given the durations of the input
streams (ffmpeg `amix` semantics of the `duration` option). -/
def amixOutputDuration (f : AmixFilter) (len : AudioSrc → ℚ) : ℚ :=
  match f.inputs.map len with
  | [] => 0
  | d :: ds =>
    match f.durationMode with
    | .first => d
    | .shortest => ds.foldl min d
    | .longest => ds.foldl max d

/-- The caption layer chosen by `composeVideo` (lines 365-376). -/
inductive SubtitleOverlay where
  | timedCaptions (segments : List SubtitleSegment)
  | staticText (text : List Char)
deriving DecidableEq, Repr

/-- `script.substring(0, 100) + (script.length > 100 ? "..." : "")`
(videoProcessor.ts line 373). -/
def jsTruncate100 (script : List Char) : List Char :=
  script.take 100 ++ (if 100 < script.length then "...".data else [])

/-- Caption-layer selection of `composeVideo`: a timed ASS track when a
subtitle file exists, else a static truncated-text overlay. -/
def composeOverlay (script : List Char) (subtitle : Option (List SubtitleSegment)) :
    SubtitleOverlay :=
  match subtitle with
  | some segs => .timedCaptions segs
  | none => .staticText (jsTruncate100 script)

/-! ### Job execution (videoProcessor.ts `executeJob`)

`executeJob` is modelled as a pure function of the environment.  Error
paths append the terminal error status that the `catch` block reports
(progress 0, message as step text and error).  The duration bookkeeping of
a completed run is recorded in the result so the duration invariants can
be stated.  The fields after `outcome` carry the values of the last
execution point reached and are only meaningful for a completed run. -/

/-- Result of one job execution. -/
structure JobRun where
  statuses : List ProcessingStatus
  outcome : ProcessingStage
  ttsSrc : TTSSource
  measuredDuration : ℚ
  targetDuration : ℚ
  videoExtensionNeeded : ℚ
  extensionApplied : Bool
  musicDuration : ℚ
  bgVideoDuration : ℚ
  subtitle : Option (List SubtitleSegment)
  overlay : SubtitleOverlay
  mixDuration : ℚ
  finalDuration : ℚ
  localFiles : List String
  uploadedToDrive : Bool
deriving Repr

/-- Abort of `executeJob` (the `catch` block, lines 184-187): report the
error stage with progress 0 and stop. -/
def errorRun (pre : List ProcessingStatus) (msg : String) : JobRun :=
  { statuses := pre ++ [⟨.error, 0, msg, some msg⟩]
    outcome := .error
    ttsSrc := .edgeTTS
    measuredDuration := 0
    targetDuration := 0
    videoExtensionNeeded := 0
    extensionApplied := false
    musicDuration := 0
    bgVideoDuration := 0
    subtitle := none
    overlay := .staticText []
    mixDuration := 0
    finalDuration := 0
    localFiles := []
    uploadedToDrive := false }

/-- Embedding of `executeJob` (videoProcessor.ts lines 82-191). -/
def executeJob (env : JobEnv) : JobRun :=
  let s1 : ProcessingStatus :=
    ⟨.analyzing, 10, "Extracting key themes and emotional beats", none⟩
  let s2 : ProcessingStatus :=
    ⟨.generating_tts, 30, "Synthesizing voiceover narration", none⟩
  let src := ttsSource env
  let fileDur := ttsFileDuration env
  if env.probeFails then errorRun [s1, s2] "Could not determine audio duration"
  else
    let measured := getAudioDuration fileDur
    let target := (decideSoraDuration measured).targetDuration
    let videoExt := max 0 (measured - target)
    let s3 : ProcessingStatus := ⟨.generating_music, 50, "Composing background music", none⟩
    if env.musicFails then errorRun [s1, s2, s3] "music generation failed"
    else
      let s4 : ProcessingStatus :=
        ⟨.generating_video, 70, "Creating visual content with Sora 2", none⟩
      if env.soraFails then
        errorRun [s1, s2, s3, s4] "Failed to generate video with Sora 2"
      else
        let bgLen := if 1/10 < videoExt then extendVideoToAudioLength target measured
          else target
        let s5 : ProcessingStatus :=
          ⟨.composing, 85, "Adding subtitles and compositing layers", none⟩
        let subtitle := generateSubtitleFile env.script measured
        if env.composeFails then errorRun [s1, s2, s3, s4, s5] "ffmpeg compose error"
        else
          let mixDur := amixOutputDuration composeAudioFilter
            (fun a => match a with
              | .speech => fileDur
              | .music => measured
              | .bgVideo => bgLen)
          let s6 : ProcessingStatus := ⟨.composing, 95, "Finalizing video", none⟩
          let s7 : ProcessingStatus := ⟨.complete, 100, "Video generation complete", none⟩
          { statuses := [s1, s2, s3, s4, s5, s6, s7]
            outcome := .complete
            ttsSrc := src
            measuredDuration := measured
            targetDuration := target
            videoExtensionNeeded := videoExt
            extensionApplied := decide (1/10 < videoExt)
            musicDuration := measured
            bgVideoDuration := bgLen
            subtitle := subtitle
            overlay := composeOverlay env.script subtitle
            mixDuration := mixDur
            finalDuration := max bgLen mixDur
            localFiles := if env.uploadFails then [env.projectId ++ "_final.mp4"] else []
            uploadedToDrive := !env.uploadFails }

/-- Event trace of one job: every `updateProgress` call persists the
status and invokes the callback, in order. -/
def jobEvents (env : JobEnv) : List StatusEvent :=
  (((executeJob env).statuses).map updateProgress).flatten

/-- Embedding of `getVideoPath` (videoProcessor.ts lines 419-427): the
final asset path when the local file exists, else nothing. -/
def getVideoPath (run : JobRun) (projectId : String) : Option String :=
  if (projectId ++ "_final.mp4") ∈ run.localFiles then some (projectId ++ "_final.mp4")
  else none

/-! ### Job queue (videoProcessor.ts `processVideo` / `processQueue`)

The queue is modelled as a labelled transition system over the
orchestrator's mutable state: the pending FIFO `jobQueue`
(`processVideo` pushes, `processQueue` shifts from the front), the
single-execution flag `isProcessingQueue` together with the identity of
the running job (`activeJob`), and the observable log of progress
callbacks.  A job can only start when no job is executing (the guard at
line 57), only the executing job emits callbacks, and finishing — the
terminal `complete`/`error` callback followed by the `finally` release of
the flag — frees the slot.  The ghost field `submitted` records the
submission order. -/

/-- Identifier of a submitted job. -/
abbrev JobId := Nat

/-- Observable callback events of the queue model. -/
inductive QEvent where
  | stage (j : JobId)
  | terminal (j : JobId)
deriving DecidableEq, Repr

/-- Job that an event belongs to. -/
def QEvent.job : QEvent → JobId
  | .stage j => j
  | .terminal j => j

/-- Mutable state of the `VideoProcessor` queue machinery. -/
structure QState where
  jobQueue : List JobId
  activeJob : Option JobId
  submitted : List JobId
  log : List QEvent
deriving DecidableEq, Repr

/-- Transitions of the queue: `submit` models `processVideo` (push +
wake), `start` models `processQueue` shifting the head when the slot is
free, `emit` a non-terminal progress callback of the running job, and
`finish` the terminal callback (`complete` in line 181 or `error` in line
186) followed by the release of the execution slot in the `finally`
blocks. -/
inductive QStep : QState → QState → Prop where
  | submit (s : QState) (j : JobId) :
      QStep s ⟨s.jobQueue ++ [j], s.activeJob, s.submitted ++ [j], s.log⟩
  | start (s : QState) (j : JobId) (q : List JobId) :
      s.activeJob = none → s.jobQueue = j :: q →
      QStep s ⟨q, some j, s.submitted, s.log⟩
  | emit (s : QState) (j : JobId) :
      s.activeJob = some j →
      QStep s ⟨s.jobQueue, s.activeJob, s.submitted, s.log ++ [.stage j]⟩
  | finish (s : QState) (j : JobId) :
      s.activeJob = some j →
      QStep s ⟨s.jobQueue, none, s.submitted, s.log ++ [.terminal j]⟩

/-- Initial state: nothing queued, slot free. -/
def QInit : QState := ⟨[], none, [], []⟩

/-- States the queue machinery can actually reach. -/
def QReachable (s : QState) : Prop := Relation.ReflTransGen QStep QInit s

/-- Shape of the callback log of a drained queue: the started jobs in
order, each contributing a contiguous block of its own stage events ended
by its terminal event — except the currently running job (if any), whose
block is still open at the end of the log. -/
inductive DrainLog : List JobId → Option JobId → List QEvent → Prop where
  | nil : DrainLog [] none []
  | fin {js : List JobId} {log blk : List QEvent} {j : JobId} :
      DrainLog js none log → (∀ e ∈ blk, e = QEvent.stage j) →
      DrainLog (js ++ [j]) none (log ++ blk ++ [QEvent.terminal j])
  | run {js : List JobId} {log blk : List QEvent} {j : JobId} :
      DrainLog js none log → (∀ e ∈ blk, e = QEvent.stage j) →
      DrainLog (js ++ [j]) (some j) (log ++ blk)

/-- Inductive invariant of the queue machinery: the log is a drained log
of the already-started jobs, and the submission order is exactly the
started jobs followed by the still-pending queue. -/
def QInv (s : QState) : Prop :=
  ∃ started, DrainLog started s.activeJob s.log ∧ s.submitted = started ++ s.jobQueue

/-- Environment of the C2 counterexample: every external call succeeds
and the synthesized speech is exactly 12 seconds long. -/
def envC2 : JobEnv :=
  { projectId := "p1"
    title := "t"
    script := "Hello world, this is a test script.".data
    edgeTTSFails := false
    k2fsaFails := false
    ttsRealDuration := 12
    probeFails := false
    musicFails := false
    soraFails := false
    composeFails := false
    uploadFails := false }

/-- Environment of the C2 witness: all stages succeed, 5-second speech. -/
def envC2W : JobEnv :=
  { envC2 with projectId := "p2", ttsRealDuration := 5 }

/-- Environment of the C4 counterexample/witness: both TTS providers
fail, everything else succeeds. -/
def envC4 : JobEnv :=
  { projectId := "p4"
    title := "t"
    script := "This is a short test script for the fallback chain.".data
    edgeTTSFails := true
    k2fsaFails := true
    ttsRealDuration := 3
    probeFails := false
    musicFails := false
    soraFails := false
    composeFails := false
    uploadFails := false }

/-- Final state of the C3 witness run: jobs 1 and 2 submitted in
succession, job 1 ran to its terminal event, then job 2 started and
emitted one callback. -/
def c3FinalState : QState :=
  ⟨[], some 2, [1, 2], [QEvent.stage 1, QEvent.terminal 1, QEvent.stage 2]⟩

/-- Environment of the C6 counterexample: the compose stage fails. -/
def envC6 : JobEnv :=
  { projectId := "p6"
    title := "t"
    script := "Hello there.".data
    edgeTTSFails := false
    k2fsaFails := false
    ttsRealDuration := 5
    probeFails := false
    musicFails := false
    soraFails := false
    composeFails := true
    uploadFails := false }

/-- Environment of the C6 witness: everything succeeds. -/
def envC6W : JobEnv :=
  { envC6 with projectId := "p6w", composeFails := false }

/-- Environment of the C8 witness: all stages succeed, the upload
throws. -/
def envC8 : JobEnv :=
  { projectId := "p8"
    title := "t"
    script := "A script whose upload to durable storage will fail.".data
    edgeTTSFails := false
    k2fsaFails := false
    ttsRealDuration := 4
    probeFails := false
    musicFails := false
    soraFails := false
    composeFails := false
    uploadFails := true }

/-- The script of the C5 counterexample. -/
def hiScript : List Char := ['H', 'i', '.']

/-- Concrete stream lengths refuting the "shorter of the two" wording:
speech 5s, music 2s. -/
def c9Lens : AudioSrc → ℚ := fun a =>
  match a with
  | .speech => 5
  | .music => 2
  | .bgVideo => 7

/-- Environment of the C10 witness: a whitespace-only script. -/
def envC10 : JobEnv :=
  { projectId := "p10"
    title := "t"
    script := "   ".data
    edgeTTSFails := false
    k2fsaFails := false
    ttsRealDuration := 5
    probeFails := false
    musicFails := false
    soraFails := false
    composeFails := false
    uploadFails := false }

/-! ### Theorems -/

theorem decideSoraDuration_targetDuration (d : ℚ) :
    (decideSoraDuration d).targetDuration
      = if round10 d ≤ 4 then 4 else if round10 d ≤ 8 then 8 else 12 := rfl

theorem decideSoraDuration_extensionNeeded (d : ℚ) :
    (decideSoraDuration d).extensionNeeded
      = max 0 (d - (decideSoraDuration d).targetDuration) := rfl

theorem decideSoraDuration_shouldWarn (d : ℚ) :
    (decideSoraDuration d).shouldWarn = decide (12 < d) := rfl

theorem decideSoraDuration_warningMessage (d : ℚ) :
    (decideSoraDuration d).warningMessage
      = if 12 < d then
          some "Script is too long. Video will be extended with freeze-frame to match."
        else none := rfl

theorem jsRound_le (x : ℚ) : (jsRound x : ℚ) ≤ x + 1/2 := by
  simp only [jsRound]
  exact Int.floor_le (x + 1/2)

theorem lt_jsRound_add_one (x : ℚ) : x + 1/2 < (jsRound x : ℚ) + 1 := by
  simp only [jsRound]
  exact Int.lt_floor_add_one (x + 1/2)

theorem round10_lt_add (x : ℚ) : x < round10 x + 1/10 := by
  have h := lt_jsRound_add_one (x * 10)
  have heq : round10 x + 1/10 = ((jsRound (x * 10) : ℚ) + 1) / 10 := by
    rw [round10]; ring
  rw [heq, lt_div_iff₀ (by norm_num : (0:ℚ) < 10)]
  linarith

/-- Characterization of the tier chosen by `decideSoraDuration`: it is a
member of the supported tier list, it is the least tier at or above the
ROUNDED duration whenever one exists, and it is the maximal tier 12
otherwise.  The extension, warn flag, and message fields are as in the
source. -/
theorem decideSoraDuration_spec (d : ℚ) :
    (decideSoraDuration d).targetDuration ∈ soraTiers
    ∧ (round10 d ≤ 12 → round10 d ≤ (decideSoraDuration d).targetDuration
        ∧ ∀ t ∈ soraTiers, round10 d ≤ t → (decideSoraDuration d).targetDuration ≤ t)
    ∧ (12 < round10 d → (decideSoraDuration d).targetDuration = 12)
    ∧ (decideSoraDuration d).extensionNeeded
        = max 0 (d - (decideSoraDuration d).targetDuration)
    ∧ ((decideSoraDuration d).shouldWarn = true ↔ 12 < d)
    ∧ (12 < d → (decideSoraDuration d).warningMessage ≠ none) := by
  refine ⟨?_, ?_, ?_, decideSoraDuration_extensionNeeded d, ?_, ?_⟩
  · rw [decideSoraDuration_targetDuration]
    split_ifs <;> simp [soraTiers]
  · intro hr
    rw [decideSoraDuration_targetDuration]
    split_ifs with h1 h2
    · refine ⟨h1, ?_⟩
      intro t ht h
      simp [soraTiers] at ht
      rcases ht with rfl | rfl | rfl <;> norm_num
    · refine ⟨h2, ?_⟩
      intro t ht h
      simp [soraTiers] at ht
      rcases ht with rfl | rfl | rfl
      · exact absurd h h1
      · norm_num
      · norm_num
    · refine ⟨hr, ?_⟩
      intro t ht h
      simp [soraTiers] at ht
      rcases ht with rfl | rfl | rfl
      · exact absurd h h1
      · exact absurd h h2
      · norm_num
  · intro hr
    rw [decideSoraDuration_targetDuration]
    split_ifs with h1 h2
    · linarith
    · linarith
    · rfl
  · rw [decideSoraDuration_shouldWarn]; simp
  · intro h
    rw [decideSoraDuration_warningMessage]
    simp [h]

/-- With the duration exceeding the largest tier, the policy returns the
maximal tier, the exact overflow, the warn flag, and a message. -/
theorem decideSoraDuration_overflow {d : ℚ} (hd : 12 < d) :
    (decideSoraDuration d).targetDuration = 12
    ∧ (decideSoraDuration d).extensionNeeded = d - 12
    ∧ (decideSoraDuration d).shouldWarn = true
    ∧ (decideSoraDuration d).warningMessage ≠ none := by
  have h120 : (120 : ℤ) ≤ jsRound (d * 10) := by
    rw [jsRound, show (120:ℤ) = ⌊(120:ℚ)⌋ by norm_num]
    exact Int.floor_le_floor (by linarith)
  have hr : (12 : ℚ) ≤ round10 d := by
    rw [round10, le_div_iff₀ (by norm_num : (0:ℚ) < 10)]
    have hc : ((120:ℤ):ℚ) ≤ (jsRound (d * 10) : ℚ) := by exact_mod_cast h120
    push_cast at hc
    linarith
  have htgt : (decideSoraDuration d).targetDuration = 12 := by
    rw [decideSoraDuration_targetDuration]
    have h1 : ¬ round10 d ≤ 4 := by linarith
    have h2 : ¬ round10 d ≤ 8 := by linarith
    simp [h1, h2]
  refine ⟨htgt, ?_, ?_, ?_⟩
  · rw [decideSoraDuration_extensionNeeded, htgt, max_eq_right (by linarith)]
  · rw [decideSoraDuration_shouldWarn]; simp [hd]
  · rw [decideSoraDuration_warningMessage]; simp [hd]

theorem DrainLog.run_inv {js : List JobId} {j : JobId} {log : List QEvent}
    (h : DrainLog js (some j) log) :
    ∃ js₀ log₀ blk, js = js₀ ++ [j] ∧ log = log₀ ++ blk ∧ DrainLog js₀ none log₀
      ∧ ∀ e ∈ blk, e = QEvent.stage j := by
  cases h with
  | run h hb => exact ⟨_, _, _, rfl, rfl, h, hb⟩

/-- Every logged event belongs to a started job. -/
theorem DrainLog.job_mem {js : List JobId} {b : Option JobId} {log : List QEvent}
    (h : DrainLog js b log) : ∀ e ∈ log, e.job ∈ js := by
  induction h with
  | nil => simp
  | fin h hb ih =>
    intro e he
    simp only [List.append_assoc, List.mem_append, List.mem_singleton] at he
    rcases he with he | he | rfl
    · exact List.mem_append_left _ (ih e he)
    · rw [hb e he]; simp [QEvent.job]
    · simp [QEvent.job]
  | run h hb ih =>
    intro e he
    rcases List.mem_append.mp he with he | he
    · exact List.mem_append_left _ (ih e he)
    · rw [hb e he]; simp [QEvent.job]

/-- With the execution slot free, every started job has its terminal event
in the log. -/
theorem DrainLog.terminal_mem {js : List JobId} {b : Option JobId} {log : List QEvent}
    (h : DrainLog js b log) (hb : b = none) : ∀ j ∈ js, QEvent.terminal j ∈ log := by
  induction h with
  | nil => simp
  | fin h hbk ih =>
    intro j hj
    rcases List.mem_append.mp hj with hj | hj
    · exact List.mem_append_left _ (List.mem_append_left _ (ih rfl j hj))
    · rw [List.mem_singleton] at hj
      subst hj
      simp
  | run h hbk ih => exact absurd hb (by simp)

/-- Decomposition of a two-element sublist of `xs ++ [y]`. -/
theorem pair_sublist_append {a b y : JobId} {xs : List JobId}
    (h : [a, b].Sublist (xs ++ [y])) :
    [a, b].Sublist xs ∨ (b = y ∧ a ∈ xs) := by
  rw [List.sublist_append_iff] at h
  obtain ⟨l₁, l₂, heq, h₁, h₂⟩ := h
  rcases l₁ with _ | ⟨x, _ | ⟨z, t⟩⟩
  · rw [List.nil_append] at heq
    rw [← heq] at h₂
    have := h₂.length_le
    simp at this
  · simp only [List.cons_append, List.nil_append, List.cons.injEq] at heq
    obtain ⟨rfl, rfl⟩ := heq
    have hb : b ∈ [y] := h₂.subset (by simp)
    rw [List.mem_singleton] at hb
    exact Or.inr ⟨hb, h₁.subset (by simp)⟩
  · simp only [List.cons_append, List.cons.injEq] at heq
    obtain ⟨rfl, rfl, ht⟩ := heq
    obtain ⟨rfl, rfl⟩ := List.append_eq_nil.mp ht.symm
    exact Or.inl h₁

/-- A two-element sublist of a `Nodup` append whose second element sits in
the left part lies entirely in the left part. -/
theorem pair_sublist_of_mem_left {a b : JobId} {xs ys : List JobId}
    (h : [a, b].Sublist (xs ++ ys)) (hnd : (xs ++ ys).Nodup) (hb : b ∈ xs) :
    [a, b].Sublist xs := by
  have hdisj : xs.Disjoint ys := (List.nodup_append.mp hnd).2.2
  rw [List.sublist_append_iff] at h
  obtain ⟨l₁, l₂, heq, h₁, h₂⟩ := h
  rcases l₁ with _ | ⟨x, _ | ⟨z, t⟩⟩
  · rw [List.nil_append] at heq
    rw [← heq] at h₂
    exact absurd (h₂.subset (by simp)) (fun hy => hdisj hb hy)
  · simp only [List.cons_append, List.nil_append, List.cons.injEq] at heq
    obtain ⟨rfl, rfl⟩ := heq
    exact absurd (h₂.subset (by simp)) (fun hy => hdisj hb hy)
  · simp only [List.cons_append, List.cons.injEq] at heq
    obtain ⟨rfl, rfl, ht⟩ := heq
    obtain ⟨rfl, rfl⟩ := List.append_eq_nil.mp ht.symm
    exact h₁

/-- Ordering along a drained log: when `j1` was started before `j2`, every
event of `j2` comes strictly after the terminal event of `j1`. -/
theorem DrainLog.ordering {js : List JobId} {b : Option JobId} {log : List QEvent}
    (h : DrainLog js b log) (hnd : js.Nodup) {j1 j2 : JobId}
    (hsub : [j1, j2].Sublist js) :
    (∀ e ∈ log, e.job ≠ j2)
    ∨ ∃ l₁ l₂, log = l₁ ++ QEvent.terminal j1 :: l₂ ∧ ∀ e ∈ l₁, e.job ≠ j2 := by
  induction h with
  | nil =>
    left; simp
  | @fin js₀ log₀ blk j h hbk ih =>
    have hnd₀ : js₀.Nodup := ((List.sublist_append_left _ _).nodup hnd)
    have hj_not : j ∉ js₀ := by
      have := List.nodup_append.mp hnd
      intro hj
      exact this.2.2 hj (by simp)
    rcases pair_sublist_append hsub with hsub₀ | ⟨rfl, hj1⟩
    · have hj2 : j2 ∈ js₀ := hsub₀.subset (by simp)
      have hjne : j ≠ j2 := fun hj => hj_not (hj ▸ hj2)
      rcases ih hnd₀ hsub₀ with hno | ⟨l₁, l₂, hl, hfree⟩
      · left
        intro e he
        simp only [List.append_assoc, List.mem_append, List.mem_singleton] at he
        rcases he with he | he | rfl
        · exact hno e he
        · rw [hbk e he]; simpa [QEvent.job] using hjne
        · simpa [QEvent.job] using hjne
      · right
        exact ⟨l₁, l₂ ++ blk ++ [QEvent.terminal j], by simp [hl], hfree⟩
    · -- j2 is the job of the closed block; j1 finished earlier inside log₀
      have hterm : QEvent.terminal j1 ∈ log₀ := h.terminal_mem rfl j1 hj1
      obtain ⟨l₁, l₂, hl⟩ := List.append_of_mem hterm
      right
      refine ⟨l₁, l₂ ++ blk ++ [QEvent.terminal j2], by simp [hl], ?_⟩
      intro e he
      have : e.job ∈ js₀ := h.job_mem e (by rw [hl]; exact List.mem_append_left _ he)
      exact fun hEq => hj_not (hEq ▸ this)
  | @run js₀ log₀ blk j h hbk ih =>
    have hnd₀ : js₀.Nodup := ((List.sublist_append_left _ _).nodup hnd)
    have hj_not : j ∉ js₀ := by
      have := List.nodup_append.mp hnd
      intro hj
      exact this.2.2 hj (by simp)
    rcases pair_sublist_append hsub with hsub₀ | ⟨rfl, hj1⟩
    · have hj2 : j2 ∈ js₀ := hsub₀.subset (by simp)
      have hjne : j ≠ j2 := fun hj => hj_not (hj ▸ hj2)
      rcases ih hnd₀ hsub₀ with hno | ⟨l₁, l₂, hl, hfree⟩
      · left
        intro e he
        rcases List.mem_append.mp he with he | he
        · exact hno e he
        · rw [hbk e he]; simpa [QEvent.job] using hjne
      · right
        exact ⟨l₁, l₂ ++ blk, by simp [hl], hfree⟩
    · have hterm : QEvent.terminal j1 ∈ log₀ := h.terminal_mem rfl j1 hj1
      obtain ⟨l₁, l₂, hl⟩ := List.append_of_mem hterm
      right
      refine ⟨l₁, l₂ ++ blk, by simp [hl], ?_⟩
      intro e he
      have : e.job ∈ js₀ := h.job_mem e (by rw [hl]; exact List.mem_append_left _ he)
      exact fun hEq => hj_not (hEq ▸ this)

theorem QInv_init : QInv QInit := ⟨[], DrainLog.nil, rfl⟩

theorem QInv_step {s t : QState} (h : QStep s t) (hs : QInv s) : QInv t := by
  obtain ⟨started, hd, he⟩ := hs
  cases h with
  | submit j =>
    exact ⟨started, hd, by simp [he]⟩
  | start j q hb hq =>
    refine ⟨started ++ [j], ?_, ?_⟩
    · show DrainLog (started ++ [j]) (some j) s.log
      have hd' : DrainLog started none s.log := hb ▸ hd
      have h2 : DrainLog (started ++ [j]) (some j) (s.log ++ []) := DrainLog.run hd' (by simp)
      simpa using h2
    · rw [he, hq]; simp
  | emit j hb =>
    rw [hb] at hd
    obtain ⟨js₀, log₀, blk, rfl, hlog, h₀, hblk⟩ := hd.run_inv
    refine ⟨js₀ ++ [j], ?_, he⟩
    have hnew : DrainLog (js₀ ++ [j]) (some j) (log₀ ++ (blk ++ [QEvent.stage j])) := by
      refine DrainLog.run h₀ ?_
      intro e hee
      rcases List.mem_append.mp hee with hee | hee
      · exact hblk e hee
      · rw [List.mem_singleton] at hee; exact hee
    show DrainLog (js₀ ++ [j]) s.activeJob (s.log ++ [QEvent.stage j])
    rw [hb, hlog, List.append_assoc]
    exact hnew
  | finish j hb =>
    rw [hb] at hd
    obtain ⟨js₀, log₀, blk, rfl, hlog, h₀, hblk⟩ := hd.run_inv
    refine ⟨js₀ ++ [j], ?_, he⟩
    show DrainLog (js₀ ++ [j]) (none : Option JobId) (s.log ++ [QEvent.terminal j])
    rw [hlog]
    exact DrainLog.fin h₀ hblk

theorem QInv_reachable {s : QState} (hs : QReachable s) : QInv s := by
  induction hs with
  | refl => exact QInv_init
  | tail _ hstep ih => exact QInv_step hstep ih

/-! ### Facts about trimming and the splitters -/

theorem mem_dropWhile_of_not {p : Char → Bool} {c : Char} {l : List Char}
    (hc : c ∈ l) (hp : p c = false) : c ∈ l.dropWhile p := by
  have hsplit : l.takeWhile p ++ l.dropWhile p = l := List.takeWhile_append_dropWhile p l
  rw [← hsplit] at hc
  rcases List.mem_append.mp hc with h | h
  · have := List.mem_takeWhile_imp h
    rw [hp] at this
    exact absurd this (by simp)
  · exact h

theorem mem_trim_of_not_ws {c : Char} {s : List Char}
    (hc : c ∈ s) (hp : isWs c = false) : c ∈ trim s := by
  rw [trim, List.mem_reverse]
  exact mem_dropWhile_of_not (List.mem_reverse.mpr (mem_dropWhile_of_not hc hp)) hp

theorem trim_eq_nil_iff (s : List Char) : trim s = [] ↔ ∀ c ∈ s, isWs c = true := by
  constructor
  · intro h c hc
    by_contra hws
    have hf : isWs c = false := by
      cases hy : isWs c
      · rfl
      · exact absurd hy hws
    have h3 : c ∈ trim s := mem_trim_of_not_ws hc hf
    rw [h] at h3
    exact absurd h3 (List.not_mem_nil c)
  · intro h
    rw [trim, List.reverse_eq_nil_iff, List.dropWhile_eq_nil_iff]
    intro c hc
    exact h c ((List.dropWhile_sublist _).subset (List.mem_reverse.mp hc))

theorem exists_not_ws_of_trim_ne_nil {s : List Char} (h : trim s ≠ []) :
    ∃ c ∈ s, isWs c = false := by
  by_contra hall
  push_neg at hall
  refine h ((trim_eq_nil_iff s).mpr ?_)
  intro c hc
  cases hy : isWs c
  · exact absurd hy (hall c hc)
  · rfl

theorem mem_joinSpace {c : Char} {x : List Char} :
    ∀ {l : List (List Char)}, x ∈ l → c ∈ x → c ∈ joinSpace l
  | [], hx, _ => absurd hx (List.not_mem_nil x)
  | [y], hx, hc => by
      rw [List.mem_singleton] at hx
      subst hx
      simpa [joinSpace] using hc
  | y :: z :: rest, hx, hc => by
      rcases List.mem_cons.mp hx with rfl | hx'
      · exact List.mem_append_left _ hc
      · refine List.mem_append_right _ ?_
        exact List.mem_cons_of_mem _ (mem_joinSpace hx' hc)

theorem splitSentGo_cons_some (b : Char) (rest acc : List Char) :
    splitSentGo (b :: rest) (some acc) =
      if isWs b && (match acc with | p :: _ => isSentenceEnd p | [] => false) then
        acc.reverse :: splitSentGo rest none
      else splitSentGo rest (some (b :: acc)) := rfl

theorem splitSentGo_cons_none (b : Char) (rest : List Char) :
    splitSentGo (b :: rest) none =
      if isWs b then splitSentGo rest none
      else splitSentGo rest (some [b]) := rfl

theorem splitClausesGo_cons_some (b : Char) (rest acc : List Char) :
    splitClausesGo (b :: rest) (some acc) =
      if isClauseEnd b then
        match rest with
        | [] => [(b :: acc).reverse]
        | _ :: _ => (b :: acc).reverse :: splitClausesGo rest none
      else splitClausesGo rest (some (b :: acc)) := rfl

theorem splitClausesGo_cons_none (b : Char) (rest : List Char) :
    splitClausesGo (b :: rest) none =
      if isWs b then splitClausesGo rest none
      else if isClauseEnd b then
        match rest with
        | [] => [[b]]
        | _ :: _ => [b] :: splitClausesGo rest none
      else splitClausesGo rest (some [b]) := rfl

/-- Every non-whitespace character of the input appears in one of the
sentences produced by `splitSentGo`. -/
theorem splitSentGo_covers {c : Char} (hws : isWs c = false) :
    ∀ (l : List Char) (st : Option (List Char)),
      (c ∈ l ∨ ∃ a, st = some a ∧ c ∈ a) →
      ∃ s ∈ splitSentGo l st, c ∈ s
  | [], some acc, hc => by
      rcases hc with hc | ⟨a, ha, hca⟩
      · exact absurd hc (List.not_mem_nil c)
      · rw [Option.some.injEq] at ha
        subst ha
        exact ⟨acc.reverse, by simp [splitSentGo], List.mem_reverse.mpr hca⟩
  | [], none, hc => by
      rcases hc with hc | ⟨a, ha, -⟩
      · exact absurd hc (List.not_mem_nil c)
      · exact absurd ha (by simp)
  | b :: rest, some acc, hc => by
      rw [splitSentGo_cons_some]
      split
      next hcond =>
        have hbws : isWs b = true := by
          cases hq : isWs b
          · rw [hq] at hcond; simp at hcond
          · rfl
        rcases hc with hc | ⟨a, ha, hca⟩
        · rcases List.mem_cons.mp hc with rfl | hc2
          · rw [hbws] at hws; exact absurd hws (by simp)
          · obtain ⟨s, hs, hcs⟩ := splitSentGo_covers hws rest none (Or.inl hc2)
            exact ⟨s, List.mem_cons_of_mem _ hs, hcs⟩
        · rw [Option.some.injEq] at ha
          subst ha
          exact ⟨acc.reverse, List.mem_cons_self _ _, List.mem_reverse.mpr hca⟩
      next =>
        apply splitSentGo_covers hws rest (some (b :: acc))
        rcases hc with hc | ⟨a, ha, hca⟩
        · rcases List.mem_cons.mp hc with rfl | hc2
          · exact Or.inr ⟨c :: acc, rfl, List.mem_cons_self _ _⟩
          · exact Or.inl hc2
        · rw [Option.some.injEq] at ha
          subst ha
          exact Or.inr ⟨b :: acc, rfl, List.mem_cons_of_mem _ hca⟩
  | b :: rest, none, hc => by
      rw [splitSentGo_cons_none]
      split
      next hbws =>
        rcases hc with hc | ⟨a, ha, -⟩
        · rcases List.mem_cons.mp hc with rfl | hc2
          · rw [hbws] at hws; exact absurd hws (by simp)
          · exact splitSentGo_covers hws rest none (Or.inl hc2)
        · exact absurd ha (by simp)
      next =>
        apply splitSentGo_covers hws rest (some [b])
        rcases hc with hc | ⟨a, ha, -⟩
        · rcases List.mem_cons.mp hc with rfl | hc2
          · exact Or.inr ⟨[c], rfl, List.mem_singleton.mpr rfl⟩
          · exact Or.inl hc2
        · exact absurd ha (by simp)

/-- Every non-whitespace character of the input appears in one of the
clauses produced by `splitClausesGo`. -/
theorem splitClausesGo_covers {c : Char} (hws : isWs c = false) :
    ∀ (l : List Char) (st : Option (List Char)),
      (c ∈ l ∨ ∃ a, st = some a ∧ c ∈ a) →
      ∃ s ∈ splitClausesGo l st, c ∈ s
  | [], some acc, hc => by
      rcases hc with hc | ⟨a, ha, hca⟩
      · exact absurd hc (List.not_mem_nil c)
      · rw [Option.some.injEq] at ha
        subst ha
        exact ⟨acc.reverse, by simp [splitClausesGo], List.mem_reverse.mpr hca⟩
  | [], none, hc => by
      rcases hc with hc | ⟨a, ha, -⟩
      · exact absurd hc (List.not_mem_nil c)
      · exact absurd ha (by simp)
  | b :: rest, some acc, hc => by
      rw [splitClausesGo_cons_some]
      split
      next =>
        cases rest with
        | nil =>
          refine ⟨(b :: acc).reverse, List.mem_singleton.mpr rfl, ?_⟩
          rw [List.mem_reverse]
          rcases hc with hc | ⟨a, ha, hca⟩
          · rcases List.mem_cons.mp hc with rfl | hc2
            · exact List.mem_cons_self _ _
            · exact absurd hc2 (List.not_mem_nil c)
          · rw [Option.some.injEq] at ha
            subst ha
            exact List.mem_cons_of_mem _ hca
        | cons r rs =>
          rcases hc with hc | ⟨a, ha, hca⟩
          · rcases List.mem_cons.mp hc with rfl | hc2
            · exact ⟨(c :: acc).reverse, List.mem_cons_self _ _,
                List.mem_reverse.mpr (List.mem_cons_self _ _)⟩
            · obtain ⟨s, hs, hcs⟩ := splitClausesGo_covers hws (r :: rs) none (Or.inl hc2)
              exact ⟨s, List.mem_cons_of_mem _ hs, hcs⟩
          · rw [Option.some.injEq] at ha
            subst ha
            exact ⟨(b :: acc).reverse, List.mem_cons_self _ _,
              List.mem_reverse.mpr (List.mem_cons_of_mem _ hca)⟩
      next =>
        apply splitClausesGo_covers hws rest (some (b :: acc))
        rcases hc with hc | ⟨a, ha, hca⟩
        · rcases List.mem_cons.mp hc with rfl | hc2
          · exact Or.inr ⟨c :: acc, rfl, List.mem_cons_self _ _⟩
          · exact Or.inl hc2
        · rw [Option.some.injEq] at ha
          subst ha
          exact Or.inr ⟨b :: acc, rfl, List.mem_cons_of_mem _ hca⟩
  | b :: rest, none, hc => by
      rw [splitClausesGo_cons_none]
      split
      next hbws =>
        rcases hc with hc | ⟨a, ha, -⟩
        · rcases List.mem_cons.mp hc with rfl | hc2
          · rw [hbws] at hws; exact absurd hws (by simp)
          · exact splitClausesGo_covers hws rest none (Or.inl hc2)
        · exact absurd ha (by simp)
      next =>
        split
        next =>
          cases rest with
          | nil =>
            refine ⟨[b], List.mem_singleton.mpr rfl, ?_⟩
            rcases hc with hc | ⟨a, ha, -⟩
            · rcases List.mem_cons.mp hc with rfl | hc2
              · exact List.mem_singleton.mpr rfl
              · exact absurd hc2 (List.not_mem_nil c)
            · exact absurd ha (by simp)
          | cons r rs =>
            rcases hc with hc | ⟨a, ha, -⟩
            · rcases List.mem_cons.mp hc with rfl | hc2
              · exact ⟨[c], List.mem_cons_self _ _, List.mem_singleton.mpr rfl⟩
              · obtain ⟨s, hs, hcs⟩ := splitClausesGo_covers hws (r :: rs) none (Or.inl hc2)
                exact ⟨s, List.mem_cons_of_mem _ hs, hcs⟩
            · exact absurd ha (by simp)
        next =>
          apply splitClausesGo_covers hws rest (some [b])
          rcases hc with hc | ⟨a, ha, -⟩
          · rcases List.mem_cons.mp hc with rfl | hc2
            · exact Or.inr ⟨[c], rfl, List.mem_singleton.mpr rfl⟩
            · exact Or.inl hc2
          · exact absurd ha (by simp)

/-- The clause-accumulation loop produces a segment containing a
non-whitespace character as soon as some clause, or the pending
accumulator, contains one. -/
theorem clauseLoop_covers :
    ∀ (clauses cur : List (List Char)) (len : Nat),
      (∀ x ∈ cur, ∃ c ∈ x, isWs c = false) →
      ((∃ cl ∈ clauses, ∃ c ∈ cl, isWs c = false) ∨ cur ≠ []) →
      ∃ s ∈ clauseLoop clauses cur len, ∃ c ∈ s, isWs c = false
  | [], cur, len, hcur, hne => by
      have hc : cur ≠ [] := by
        rcases hne with h | h
        · obtain ⟨cl, hcl, _⟩ := h
          exact absurd hcl (List.not_mem_nil cl)
        · exact h
      obtain ⟨x, hx⟩ := List.exists_mem_of_ne_nil cur hc
      obtain ⟨ch, hch, hchws⟩ := hcur x hx
      have hemp : cur.isEmpty = false := by simpa using hc
      refine ⟨trim (joinSpace cur), ?_, ch, ?_, hchws⟩
      · simp [clauseLoop, hemp]
      · exact mem_trim_of_not_ws (mem_joinSpace hx hch) hchws
  | cl :: rest, cur, len, hcur, hne => by
      rw [clauseLoop]
      split
      next hcond =>
        -- a segment is flushed; `cur` is nonempty by the guard
        have hc : cur ≠ [] := by
          rcases hcond with ⟨-, h⟩
          simpa using h
        obtain ⟨x, hx⟩ := List.exists_mem_of_ne_nil cur hc
        obtain ⟨ch, hch, hchws⟩ := hcur x hx
        refine ⟨trim (joinSpace cur), List.mem_cons_self _ _, ch, ?_, hchws⟩
        exact mem_trim_of_not_ws (mem_joinSpace hx hch) hchws
      next =>
        split
        next hclempty =>
          -- the clause is whitespace-only and is skipped
          refine clauseLoop_covers rest cur len hcur ?_
          rcases hne with h | h
          · obtain ⟨cl', hcl', hc'⟩ := h
            rcases List.mem_cons.mp hcl' with rfl | hmem
            · obtain ⟨ch, hch, hchws⟩ := hc'
              have : trim cl' ≠ [] := List.ne_nil_of_mem (mem_trim_of_not_ws hch hchws)
              rw [List.isEmpty_iff] at hclempty
              exact absurd hclempty this
            · exact Or.inl ⟨cl', hmem, hc'⟩
          · exact Or.inr h
        next hclne =>
          refine clauseLoop_covers rest (cur ++ [trim cl]) (len + wordCountTrim cl) ?_ ?_
          · intro x hx
            rcases List.mem_append.mp hx with hx' | hx'
            · exact hcur x hx'
            · rw [List.mem_singleton] at hx'
              subst hx'
              rw [List.isEmpty_iff] at hclne
              obtain ⟨ch, hch, hchws⟩ := exists_not_ws_of_trim_ne_nil hclne
              exact ⟨ch, mem_trim_of_not_ws hch hchws, hchws⟩
          · exact Or.inr (by simp)

/-- A sentence containing a non-whitespace character contributes at least
one segment containing a non-whitespace character. -/
theorem segmentsOfSentence_covers {sentence : List Char} {c : Char}
    (hc : c ∈ sentence) (hws : isWs c = false) :
    ∃ s ∈ segmentsOfSentence sentence, ∃ ch ∈ s, isWs ch = false := by
  rw [segmentsOfSentence]
  split
  · have hne : trim sentence ≠ [] := List.ne_nil_of_mem (mem_trim_of_not_ws hc hws)
    have hfalse : (trim sentence).isEmpty = false := by simpa using hne
    refine ⟨trim sentence, ?_, c, mem_trim_of_not_ws hc hws, hws⟩
    simp [hfalse]
  · obtain ⟨cl, hcl, hccl⟩ := splitClausesGo_covers hws sentence (some []) (Or.inl hc)
    exact clauseLoop_covers (splitClauses sentence) [] 0 (by simp)
      (Or.inl ⟨cl, hcl, c, hccl, hws⟩)

/-- A script containing a non-whitespace character yields at least one
(nonempty) segment. -/
theorem splitIntoSegments_ne_nil {script : List Char} {c : Char}
    (hc : c ∈ script) (hws : isWs c = false) :
    splitIntoSegments script ≠ [] := by
  obtain ⟨sent, hsent, hcsent⟩ := splitSentGo_covers hws script (some []) (Or.inl hc)
  obtain ⟨s, hs, ch, hch, _⟩ := segmentsOfSentence_covers hcsent hws
  have hsmem : s ∈ ((splitSentences script).map segmentsOfSentence).flatten :=
    List.mem_flatten.mpr ⟨segmentsOfSentence sent, List.mem_map_of_mem _ hsent, hs⟩
  have hslen : 0 < s.length := List.length_pos.mpr (List.ne_nil_of_mem hch)
  refine List.ne_nil_of_mem (a := s) ?_
  rw [splitIntoSegments]
  exact List.mem_filter.mpr ⟨hsmem, by simpa using hslen⟩

/-! ### Facts about the timing allocation -/

theorem calcDurations_length (segments : List (List Char)) (totalDuration : ℚ) :
    (calcDurations segments totalDuration).length = segments.length := by
  rw [calcDurations]
  split <;> split <;> simp

/-- Every allocated duration is at least the absolute floor `0.8`. -/
theorem calcDurations_lower (segments : List (List Char)) (totalDuration : ℚ) :
    ∀ d ∈ calcDurations segments totalDuration, minScaledDuration ≤ d := by
  intro d hd
  rw [calcDurations] at hd
  have h68 : minScaledDuration ≤ minSegmentDuration := by
    rw [minScaledDuration, minSegmentDuration]; norm_num
  split at hd <;> split at hd <;>
    · obtain ⟨x, -, rfl⟩ := List.mem_map.mp hd
      first
        | exact le_max_left _ _
        | exact le_trans h68 (le_max_left _ _)

theorem minScaledDuration_pos : (0:ℚ) < minScaledDuration := by
  rw [minScaledDuration]; norm_num

/-- Start times constructed by `buildTimed` advance by each segment's
duration; end times are clamped at `totalDuration - endBuffer`. -/
theorem buildTimed_endTime_le (totalDuration : ℚ) :
    ∀ (pairs : List (List Char × ℚ)) (cur : ℚ),
      ∀ sg ∈ buildTimed totalDuration pairs cur, sg.endTime ≤ totalDuration - endBuffer
  | [], cur, sg, hsg => absurd hsg (List.not_mem_nil sg)
  | (txt, dur) :: rest, cur, sg, hsg => by
    rw [buildTimed] at hsg
    rcases List.mem_cons.mp hsg with rfl | hsg'
    · exact min_le_right _ _
    · exact buildTimed_endTime_le totalDuration rest (cur + dur) sg hsg'

theorem buildTimed_start_lt_end_iff (totalDuration : ℚ) :
    ∀ (pairs : List (List Char × ℚ)) (cur : ℚ),
      (∀ p ∈ pairs, minScaledDuration ≤ p.2) →
      ∀ sg ∈ buildTimed totalDuration pairs cur,
        (sg.startTime < sg.endTime ↔ sg.startTime < totalDuration - endBuffer)
  | [], cur, _, sg, hsg => absurd hsg (List.not_mem_nil sg)
  | (txt, dur) :: rest, cur, hdur, sg, hsg => by
    rw [buildTimed] at hsg
    rcases List.mem_cons.mp hsg with rfl | hsg'
    · have hd : minScaledDuration ≤ dur := hdur _ (List.mem_cons_self _ _)
      have hov : (0:ℚ) ≤ if rest.isEmpty then 0 else subtitleOverlap := by
        split
        · exact le_refl 0
        · rw [subtitleOverlap]; norm_num
      constructor
      · intro h
        exact lt_of_lt_of_le h (min_le_right _ _)
      · intro h
        refine lt_min ?_ h
        have := minScaledDuration_pos
        simp only
        linarith
    · exact buildTimed_start_lt_end_iff totalDuration rest (cur + dur)
        (fun p hp => hdur p (List.mem_cons_of_mem _ hp)) sg hsg'

/-- Start times strictly increase and end times never decrease along the
segments constructed by `buildTimed`. -/
theorem buildTimed_chain (totalDuration : ℚ) :
    ∀ (pairs : List (List Char × ℚ)) (cur : ℚ),
      (∀ p ∈ pairs, minScaledDuration ≤ p.2) →
      List.Chain' (fun a b => a.startTime < b.startTime ∧ a.endTime ≤ b.endTime)
        (buildTimed totalDuration pairs cur)
  | [], cur, _ => by rw [buildTimed]; exact List.chain'_nil
  | [(txt, dur)], cur, _ => by
    rw [buildTimed, buildTimed]
    exact List.chain'_singleton _
  | (txt, dur) :: (txt2, dur2) :: rest, cur, hdur => by
    rw [buildTimed]
    have htail := buildTimed_chain totalDuration ((txt2, dur2) :: rest) (cur + dur)
      (fun p hp => hdur p (List.mem_cons_of_mem _ hp))
    rw [buildTimed] at htail ⊢
    refine List.Chain'.cons ?_ htail
    have hd : minScaledDuration ≤ dur := hdur _ (List.mem_cons_self _ _)
    have hd2 : minScaledDuration ≤ dur2 := hdur _ (List.mem_cons_of_mem _ (List.mem_cons_self _ _))
    have hpos := minScaledDuration_pos
    constructor
    · simp only
      linarith
    · simp only
      refine min_le_min ?_ (le_refl _)
      have hov2 : (0:ℚ) ≤ if rest.isEmpty then 0 else subtitleOverlap := by
        split
        · exact le_refl 0
        · rw [subtitleOverlap]; norm_num
      have hov1 : (if ((txt2, dur2) :: rest : List (List Char × ℚ)).isEmpty then (0:ℚ)
          else subtitleOverlap) = subtitleOverlap := by simp
      rw [hov1, subtitleOverlap, minScaledDuration] at *
      linarith

theorem buildTimed_length (totalDuration : ℚ) :
    ∀ (pairs : List (List Char × ℚ)) (cur : ℚ),
      (buildTimed totalDuration pairs cur).length = pairs.length
  | [], _ => by simp [buildTimed]
  | (txt, dur) :: rest, cur => by
    rw [buildTimed, List.length_cons, List.length_cons,
      buildTimed_length totalDuration rest (cur + dur)]

theorem buildTimed_head_start (totalDuration : ℚ) (txt : List Char) (dur : ℚ)
    (rest : List (List Char × ℚ)) (cur : ℚ) :
    ∃ sg, (buildTimed totalDuration ((txt, dur) :: rest) cur).head? = some sg
      ∧ sg.startTime = cur := by
  rw [buildTimed]
  exact ⟨_, rfl, rfl⟩

/-- A nonempty segment list and positive duration always produce at least
one timed caption. -/
theorem calculateTiming_ne_nil {segments : List (List Char)} {totalDuration : ℚ}
    (hseg : segments ≠ []) (hdur : 0 < totalDuration) :
    calculateTiming segments totalDuration ≠ [] := by
  rw [calculateTiming, if_neg]
  · have hlen : (segments.zip (calcDurations segments totalDuration)).length
        = segments.length := by
      rw [List.length_zip, calcDurations_length, min_self]
    intro hnil
    have : (segments.zip (calcDurations segments totalDuration)).length = 0 := by
      rw [← buildTimed_length totalDuration _ startBuffer, hnil, List.length_nil]
    rw [hlen, List.length_eq_zero] at this
    exact hseg this
  · push_neg
    refine ⟨by simpa using hseg, by linarith⟩

/-- `generateSubtitleFile` returns `none` exactly on whitespace-only
scripts (for a positive audio duration). -/
theorem generateSubtitleFile_eq_none_iff (script : List Char) {audioDuration : ℚ}
    (hdur : 0 < audioDuration) :
    generateSubtitleFile script audioDuration = none ↔ trim script = [] := by
  constructor
  · intro h
    by_contra hne
    obtain ⟨c, hc, hws⟩ := exists_not_ws_of_trim_ne_nil hne
    have hseg : splitIntoSegments script ≠ [] := splitIntoSegments_ne_nil hc hws
    have htimed := calculateTiming_ne_nil hseg hdur
    rw [generateSubtitleFile] at h
    rw [if_neg (by simpa using hne)] at h
    rw [if_neg (by simpa using hseg)] at h
    rw [if_neg (by simpa using htimed)] at h
    exact Option.some_ne_none _ h
  · intro h
    rw [generateSubtitleFile, if_pos (by simpa using h)]

/-! ### Facts about the job pipeline -/

theorem decideSoraDuration_targetDuration_pos (d : ℚ) :
    0 < (decideSoraDuration d).targetDuration := by
  rw [decideSoraDuration_targetDuration]
  split_ifs <;> norm_num

theorem ttsFileDuration_pos (env : JobEnv) (h : 0 < env.ttsRealDuration) :
    0 < ttsFileDuration env := by
  rw [ttsFileDuration]
  split
  · exact decideSoraDuration_targetDuration_pos _
  · exact h

/-- Measurement never undercounts: it rounds up to the next tenth and adds
a tenth of a second. -/
theorem le_getAudioDuration (d : ℚ) : d + 1/10 ≤ getAudioDuration d := by
  rw [getAudioDuration]
  have hceil : d * 10 ≤ (⌈d * 10⌉ : ℚ) := Int.le_ceil _
  have : d ≤ (⌈d * 10⌉ : ℚ) / 10 := by
    rw [le_div_iff₀ (by norm_num : (0:ℚ) < 10)]
    linarith
  linarith

/-- The rounded-up tenth alone already dominates the real duration. -/
theorem le_getAudioDuration_sub (d : ℚ) : d ≤ getAudioDuration d - 1/10 := by
  have := le_getAudioDuration d
  linarith

theorem getAudioDuration_pos {d : ℚ} (h : 0 < d) : 0 < getAudioDuration d := by
  have := le_getAudioDuration d
  linarith

theorem executeJob_measuredDuration (env : JobEnv) (h1 : env.probeFails = false)
    (h2 : env.musicFails = false) (h3 : env.soraFails = false)
    (h4 : env.composeFails = false) :
    (executeJob env).measuredDuration = getAudioDuration (ttsFileDuration env) := by
  simp [executeJob, h1, h2, h3, h4]

theorem executeJob_targetDuration (env : JobEnv) (h1 : env.probeFails = false)
    (h2 : env.musicFails = false) (h3 : env.soraFails = false)
    (h4 : env.composeFails = false) :
    (executeJob env).targetDuration
      = (decideSoraDuration (getAudioDuration (ttsFileDuration env))).targetDuration := by
  simp [executeJob, h1, h2, h3, h4]

theorem executeJob_videoExtensionNeeded (env : JobEnv) (h1 : env.probeFails = false)
    (h2 : env.musicFails = false) (h3 : env.soraFails = false)
    (h4 : env.composeFails = false) :
    (executeJob env).videoExtensionNeeded
      = max 0 ((executeJob env).measuredDuration - (executeJob env).targetDuration) := by
  simp [executeJob, h1, h2, h3, h4]

theorem executeJob_extensionApplied (env : JobEnv) (h1 : env.probeFails = false)
    (h2 : env.musicFails = false) (h3 : env.soraFails = false)
    (h4 : env.composeFails = false) :
    (executeJob env).extensionApplied
      = decide (1/10 < (executeJob env).videoExtensionNeeded) := by
  simp [executeJob, h1, h2, h3, h4]

theorem executeJob_bgVideoDuration (env : JobEnv) (h1 : env.probeFails = false)
    (h2 : env.musicFails = false) (h3 : env.soraFails = false)
    (h4 : env.composeFails = false) :
    (executeJob env).bgVideoDuration
      = (if 1/10 < (executeJob env).videoExtensionNeeded then
          extendVideoToAudioLength (executeJob env).targetDuration
            (executeJob env).measuredDuration
        else (executeJob env).targetDuration) := by
  simp [executeJob, h1, h2, h3, h4]

theorem executeJob_mixDuration (env : JobEnv) (h1 : env.probeFails = false)
    (h2 : env.musicFails = false) (h3 : env.soraFails = false)
    (h4 : env.composeFails = false) :
    (executeJob env).mixDuration = ttsFileDuration env := by
  simp [executeJob, h1, h2, h3, h4, amixOutputDuration, composeAudioFilter]

theorem executeJob_finalDuration (env : JobEnv) (h1 : env.probeFails = false)
    (h2 : env.musicFails = false) (h3 : env.soraFails = false)
    (h4 : env.composeFails = false) :
    (executeJob env).finalDuration
      = max (executeJob env).bgVideoDuration (ttsFileDuration env) := by
  simp [executeJob, h1, h2, h3, h4, amixOutputDuration, composeAudioFilter]

theorem executeJob_musicDuration (env : JobEnv) (h1 : env.probeFails = false)
    (h2 : env.musicFails = false) (h3 : env.soraFails = false)
    (h4 : env.composeFails = false) :
    (executeJob env).musicDuration = (executeJob env).measuredDuration := by
  simp [executeJob, h1, h2, h3, h4]

theorem executeJob_subtitle (env : JobEnv) (h1 : env.probeFails = false)
    (h2 : env.musicFails = false) (h3 : env.soraFails = false)
    (h4 : env.composeFails = false) :
    (executeJob env).subtitle
      = generateSubtitleFile env.script (getAudioDuration (ttsFileDuration env)) := by
  simp [executeJob, h1, h2, h3, h4]

theorem executeJob_overlay (env : JobEnv) (h1 : env.probeFails = false)
    (h2 : env.musicFails = false) (h3 : env.soraFails = false)
    (h4 : env.composeFails = false) :
    (executeJob env).overlay = composeOverlay env.script (executeJob env).subtitle := by
  simp [executeJob, h1, h2, h3, h4]

theorem executeJob_ttsSrc (env : JobEnv) (h1 : env.probeFails = false)
    (h2 : env.musicFails = false) (h3 : env.soraFails = false)
    (h4 : env.composeFails = false) :
    (executeJob env).ttsSrc = ttsSource env := by
  simp [executeJob, h1, h2, h3, h4]

theorem executeJob_statuses (env : JobEnv) (h1 : env.probeFails = false)
    (h2 : env.musicFails = false) (h3 : env.soraFails = false)
    (h4 : env.composeFails = false) :
    (executeJob env).statuses =
      [⟨.analyzing, 10, "Extracting key themes and emotional beats", none⟩,
       ⟨.generating_tts, 30, "Synthesizing voiceover narration", none⟩,
       ⟨.generating_music, 50, "Composing background music", none⟩,
       ⟨.generating_video, 70, "Creating visual content with Sora 2", none⟩,
       ⟨.composing, 85, "Adding subtitles and compositing layers", none⟩,
       ⟨.composing, 95, "Finalizing video", none⟩,
       ⟨.complete, 100, "Video generation complete", none⟩] := by
  simp [executeJob, h1, h2, h3, h4]

theorem executeJob_localFiles (env : JobEnv) (h1 : env.probeFails = false)
    (h2 : env.musicFails = false) (h3 : env.soraFails = false)
    (h4 : env.composeFails = false) :
    (executeJob env).localFiles
      = (if env.uploadFails then [env.projectId ++ "_final.mp4"] else []) := by
  simp [executeJob, h1, h2, h3, h4]

theorem executeJob_uploadedToDrive (env : JobEnv) (h1 : env.probeFails = false)
    (h2 : env.musicFails = false) (h3 : env.soraFails = false)
    (h4 : env.composeFails = false) :
    (executeJob env).uploadedToDrive = !env.uploadFails := by
  simp [executeJob, h1, h2, h3, h4]

/-- A job completes exactly when the measurement, music, video, and
compose stages succeed (TTS and upload failures are never fatal). -/
theorem executeJob_complete_iff (env : JobEnv) :
    (executeJob env).outcome = ProcessingStage.complete
      ↔ env.probeFails = false ∧ env.musicFails = false ∧ env.soraFails = false
        ∧ env.composeFails = false := by
  cases h1 : env.probeFails <;> cases h2 : env.musicFails <;> cases h3 : env.soraFails
    <;> cases h4 : env.composeFails <;> simp [executeJob, errorRun, h1, h2, h3, h4]

/-- Pairing of persist/callback events in a flattened `updateProgress`
trace. -/
theorem jobEvents_pairing (l : List ProcessingStatus) :
    ∀ i : Nat,
      ((l.map updateProgress).flatten)[2 * i]? = l[i]?.map StatusEvent.persist
      ∧ ((l.map updateProgress).flatten)[2 * i + 1]? = l[i]?.map StatusEvent.callback := by
  induction l with
  | nil => intro i; simp
  | cons st rest ih =>
    intro i
    cases i with
    | zero => simp [updateProgress]
    | succ j =>
      have hj := ih j
      have e1 : 2 * (j + 1) = 2 * j + 1 + 1 := by ring
      have e2 : 2 * (j + 1) + 1 = 2 * j + 1 + 1 + 1 := by ring
      constructor
      · rw [e1]
        simpa [updateProgress] using hj.1
      · rw [e2]
        simpa [updateProgress] using hj.2

/-! ### Claim theorems -/

/-- C1 counterexample: at the speech duration `4.01` the policy returns
the tier `4`, which is smaller than the input, although the tier `8` of
the ascending set is at or above it — the claim that the policy returns
the smallest tier `≥ d` fails because the code rounds `d` to one decimal
place before selecting the tier. -/
theorem c1_counterexample :
    (0:ℚ) < 401/100
    ∧ (decideSoraDuration (401/100)).targetDuration = 4
    ∧ (decideSoraDuration (401/100)).targetDuration < 401/100
    ∧ (8:ℚ) ∈ soraTiers ∧ (401/100 : ℚ) ≤ 8 := by
  have ht : (decideSoraDuration (401/100)).targetDuration = 4 := by
    rw [decideSoraDuration_targetDuration]
    have : round10 (401/100) = 4 := by
      rw [round10, jsRound]
      norm_num
    rw [this]
    norm_num
  exact ⟨by norm_num, ht, by rw [ht]; norm_num, by simp [soraTiers], by norm_num⟩

/-- C1 (amended): for every positive speech duration `d` the policy
returns the smallest member of the ascending tier set {4, 8, 12} that is
at or above `d` ROUNDED to the nearest tenth (`Math.round (d*10)/10`),
capped at the maximal tier 12; boundary values select their own tier; the
extension is `max 0 (d - target)`; and for every `d` exceeding 12 it
returns 12 with extension `d - 12`, the warn flag set, and a non-empty
warning message. -/
theorem c1_duration_policy (d : ℚ) (hd : 0 < d) :
    (decideSoraDuration d).targetDuration ∈ soraTiers
    ∧ (round10 d ≤ 12 → round10 d ≤ (decideSoraDuration d).targetDuration
        ∧ ∀ t ∈ soraTiers, round10 d ≤ t → (decideSoraDuration d).targetDuration ≤ t)
    ∧ (decideSoraDuration d).extensionNeeded
        = max 0 (d - (decideSoraDuration d).targetDuration)
    ∧ ((decideSoraDuration d).shouldWarn = true ↔ 12 < d)
    ∧ (12 < d → (decideSoraDuration d).targetDuration = 12
        ∧ (decideSoraDuration d).extensionNeeded = d - 12
        ∧ (decideSoraDuration d).shouldWarn = true
        ∧ (decideSoraDuration d).warningMessage ≠ none) := by
  obtain ⟨hmem, hmin, -, hext, hwarn, -⟩ := decideSoraDuration_spec d
  exact ⟨hmem, hmin, hext, hwarn, fun h => decideSoraDuration_overflow h⟩

/-- C1 witness at `d = 5`. -/
theorem c1_duration_policy_witness :
    (0:ℚ) < 5
    ∧ ((decideSoraDuration 5).targetDuration ∈ soraTiers
    ∧ (round10 5 ≤ 12 → round10 5 ≤ (decideSoraDuration 5).targetDuration
        ∧ ∀ t ∈ soraTiers, round10 5 ≤ t → (decideSoraDuration 5).targetDuration ≤ t)
    ∧ (decideSoraDuration 5).extensionNeeded
        = max 0 (5 - (decideSoraDuration 5).targetDuration)
    ∧ ((decideSoraDuration 5).shouldWarn = true ↔ (12:ℚ) < 5)
    ∧ (12 < (5:ℚ) → (decideSoraDuration 5).targetDuration = 12
        ∧ (decideSoraDuration 5).extensionNeeded = 5 - 12
        ∧ (decideSoraDuration 5).shouldWarn = true
        ∧ (decideSoraDuration 5).warningMessage ≠ none)) :=
  ⟨by norm_num, c1_duration_policy 5 (by norm_num)⟩

/-- C2 counterexample: with 12-second speech the measurement reports
12.1s, which EXCEEDS the chosen 12s clip, yet the freeze-frame extension
is NOT applied (the code only extends when the excess is strictly greater
than 0.1s), refuting the claim that the video is extended whenever the
measured duration exceeds the chosen clip duration. -/
theorem c2_counterexample :
    (executeJob envC2).measuredDuration = 121/10
    ∧ (executeJob envC2).targetDuration = 12
    ∧ (executeJob envC2).targetDuration < (executeJob envC2).measuredDuration
    ∧ (executeJob envC2).extensionApplied = false
    ∧ (executeJob envC2).bgVideoDuration = (executeJob envC2).targetDuration := by
  have hf : ttsFileDuration envC2 = 12 := rfl
  have hm0 : getAudioDuration (12:ℚ) = 121/10 := by
    rw [getAudioDuration]
    rw [show ((12:ℚ) * 10) = ((120:ℤ):ℚ) by norm_num, Int.ceil_intCast]
    norm_num
  have hm : (executeJob envC2).measuredDuration = 121/10 := by
    rw [executeJob_measuredDuration envC2 rfl rfl rfl rfl, hf, hm0]
  have ht : (executeJob envC2).targetDuration = 12 := by
    rw [executeJob_targetDuration envC2 rfl rfl rfl rfl, hf, hm0,
      decideSoraDuration_targetDuration]
    have hr : round10 (121/10) = 121/10 := by
      rw [round10, jsRound]
      norm_num
    rw [hr]
    norm_num
  have hv : (executeJob envC2).videoExtensionNeeded = 1/10 := by
    rw [executeJob_videoExtensionNeeded envC2 rfl rfl rfl rfl, hm, ht]
    norm_num
  refine ⟨hm, ht, by rw [hm, ht]; norm_num, ?_, ?_⟩
  · rw [executeJob_extensionApplied envC2 rfl rfl rfl rfl, hv]
    norm_num
  · rw [executeJob_bgVideoDuration envC2 rfl rfl rfl rfl, hv, if_neg (by norm_num)]

/-- C2 (amended): for every job that completes, the measured audio
duration dominates the real speech duration by at least 0.1s, the
freeze-frame extension fires exactly when the measured duration exceeds
the chosen clip by more than 0.1s, and — because of the measurement
margin — the delivered background video, and hence the final asset, is
never shorter than the speech audio; the mixed audio length equals the
speech length. -/
theorem c2_final_asset_covers_speech (env : JobEnv) (hpos : 0 < env.ttsRealDuration)
    (hc : (executeJob env).outcome = ProcessingStage.complete) :
    ttsFileDuration env + 1/10 ≤ (executeJob env).measuredDuration
    ∧ ttsFileDuration env ≤ (executeJob env).bgVideoDuration
    ∧ (executeJob env).mixDuration = ttsFileDuration env
    ∧ ttsFileDuration env ≤ (executeJob env).finalDuration
    ∧ ((executeJob env).extensionApplied = true
        ↔ 1/10 < (executeJob env).measuredDuration - (executeJob env).targetDuration) := by
  obtain ⟨h1, h2, h3, h4⟩ := (executeJob_complete_iff env).mp hc
  have hm := executeJob_measuredDuration env h1 h2 h3 h4
  have ht := executeJob_targetDuration env h1 h2 h3 h4
  have hv := executeJob_videoExtensionNeeded env h1 h2 h3 h4
  have hb := executeJob_bgVideoDuration env h1 h2 h3 h4
  have hmx := executeJob_mixDuration env h1 h2 h3 h4
  have hfd := executeJob_finalDuration env h1 h2 h3 h4
  have hea := executeJob_extensionApplied env h1 h2 h3 h4
  have hle : ttsFileDuration env + 1/10 ≤ (executeJob env).measuredDuration := by
    rw [hm]; exact le_getAudioDuration _
  have hmaxlt : ∀ x : ℚ, 1/10 < max 0 x ↔ 1/10 < x := by
    intro x
    constructor
    · intro h
      rcases le_or_lt x 0 with hle0 | hgt
      · rw [max_eq_left hle0] at h; norm_num at h
      · rwa [max_eq_right (le_of_lt hgt)] at h
    · intro h
      rw [max_eq_right (by linarith)]
      exact h
  refine ⟨hle, ?_, hmx, ?_, ?_⟩
  · rw [hb]
    split_ifs with hext
    · rw [hv, hmaxlt] at hext
      rw [extendVideoToAudioLength, if_neg (by linarith)]
      linarith
    · rw [hv] at hext
      push_neg at hext
      have hmt : (executeJob env).measuredDuration - (executeJob env).targetDuration ≤ 1/10 :=
        le_trans (le_max_right _ _) hext
      linarith
  · rw [hfd]
    exact le_max_right _ _
  · rw [hea, hv]
    constructor
    · intro h
      exact (hmaxlt _).mp (of_decide_eq_true h)
    · intro h
      exact decide_eq_true ((hmaxlt _).mpr h)

/-- C2 witness at a concrete completing job. -/
theorem c2_final_asset_covers_speech_witness :
    ttsFileDuration envC2W + 1/10 ≤ (executeJob envC2W).measuredDuration
    ∧ ttsFileDuration envC2W ≤ (executeJob envC2W).bgVideoDuration
    ∧ (executeJob envC2W).mixDuration = ttsFileDuration envC2W
    ∧ ttsFileDuration envC2W ≤ (executeJob envC2W).finalDuration
    ∧ ((executeJob envC2W).extensionApplied = true
        ↔ 1/10 < (executeJob envC2W).measuredDuration - (executeJob envC2W).targetDuration) :=
  c2_final_asset_covers_speech envC2W (by norm_num [envC2W, envC2]) rfl

/-- C4 counterexample: when the primary provider fails, the orchestrator
makes exactly TWO provider attempts (Edge TTS, then k2-fsa) before
synthesizing silence — there is no tertiary provider in the chain, so
the claimed primary/secondary/tertiary chain does not match the code. -/
theorem c4_counterexample :
    ttsProvidersTried envC4 = [TTSSource.edgeTTS, TTSSource.k2fsa]
    ∧ (ttsProvidersTried envC4).length = 2
    ∧ (ttsProvidersTried envC4).length ≠ 3
    ∧ ttsSource envC4 = TTSSource.silence := by
  refine ⟨rfl, rfl, by decide, rfl⟩

/-- C4 (amended): the TTS fallback chain is primary (Edge TTS), then a
single secondary provider (k2-fsa), then silence sized by the word-count
estimate; at most two providers are ever attempted, and failure of all
TTS providers alone never moves the job to the error state — given the
other stages succeed, the job still reaches `complete`, with the silent
source selected when both providers fail. -/
theorem c4_tts_exhaustion_not_fatal (env : JobEnv) (h1 : env.probeFails = false)
    (h2 : env.musicFails = false) (h3 : env.soraFails = false)
    (h4 : env.composeFails = false) :
    (executeJob env).outcome = ProcessingStage.complete
    ∧ (ttsProvidersTried env).length ≤ 2
    ∧ (env.edgeTTSFails = true → env.k2fsaFails = true →
        (executeJob env).ttsSrc = TTSSource.silence
        ∧ ttsFileDuration env = (estimateSpeechDuration env.script).targetDuration) := by
  refine ⟨(executeJob_complete_iff env).mpr ⟨h1, h2, h3, h4⟩, ?_, ?_⟩
  · rw [ttsProvidersTried]
    split <;> simp
  · intro he hk
    rw [executeJob_ttsSrc env h1 h2 h3 h4]
    constructor
    · rw [ttsSource, if_pos he, if_pos hk]
    · rw [ttsFileDuration, ttsSource, if_pos he, if_pos hk]

/-- C4 witness: both providers fail on a concrete job, which still
completes from the silent fallback. -/
theorem c4_tts_exhaustion_not_fatal_witness :
    (executeJob envC4).outcome = ProcessingStage.complete
    ∧ (ttsProvidersTried envC4).length ≤ 2
    ∧ (envC4.edgeTTSFails = true → envC4.k2fsaFails = true →
        (executeJob envC4).ttsSrc = TTSSource.silence
        ∧ ttsFileDuration envC4 = (estimateSpeechDuration envC4.script).targetDuration) :=
  c4_tts_exhaustion_not_fatal envC4 rfl rfl rfl rfl

/-- C3: single-worker FIFO serialization.  In every reachable state of
the queue machinery (with distinct job ids), (a) the jobs started so far
are exactly a prefix of the submission order — the queue is drained in
FIFO order — and (b) for any two jobs submitted with `j1` before `j2`,
either `j2` has produced no callback at all, or every callback of `j2`
sits strictly after the terminal (`complete`/`error`) callback of `j1` in
the log.  At most one job is ever executing by construction of the state
(`activeJob` is a single `Option`, guarded exactly like
`isProcessingQueue`). -/
theorem c3_single_worker_fifo {s : QState} (hs : QReachable s)
    (hnd : s.submitted.Nodup) {j1 j2 : JobId} (hsub : [j1, j2].Sublist s.submitted) :
    (∃ started, s.submitted = started ++ s.jobQueue)
    ∧ ((∀ e ∈ s.log, e.job ≠ j2)
        ∨ ∃ l₁ l₂, s.log = l₁ ++ QEvent.terminal j1 :: l₂ ∧ ∀ e ∈ l₁, e.job ≠ j2) := by
  obtain ⟨started, hd, he⟩ := QInv_reachable hs
  refine ⟨⟨started, he⟩, ?_⟩
  have hnd' : (started ++ s.jobQueue).Nodup := he ▸ hnd
  have hnd₀ : started.Nodup := (List.sublist_append_left _ _).nodup hnd'
  by_cases hj2 : j2 ∈ started
  · have hsub' : [j1, j2].Sublist started :=
      pair_sublist_of_mem_left (he ▸ hsub) hnd' hj2
    exact hd.ordering hnd₀ hsub'
  · left
    intro e helog hEq
    exact hj2 (hEq ▸ hd.job_mem e helog)

theorem c3FinalState_reachable : QReachable c3FinalState := by
  have h1 : QStep ⟨[], none, [], []⟩ ⟨[1], none, [1], []⟩ := QStep.submit _ 1
  have h2 : QStep ⟨[1], none, [1], []⟩ ⟨[1, 2], none, [1, 2], []⟩ := QStep.submit _ 2
  have h3 : QStep ⟨[1, 2], none, [1, 2], []⟩ ⟨[2], some 1, [1, 2], []⟩ :=
    QStep.start _ 1 [2] rfl rfl
  have h4 : QStep ⟨[2], some 1, [1, 2], []⟩ ⟨[2], some 1, [1, 2], [QEvent.stage 1]⟩ :=
    QStep.emit _ 1 rfl
  have h5 : QStep ⟨[2], some 1, [1, 2], [QEvent.stage 1]⟩
      ⟨[2], none, [1, 2], [QEvent.stage 1, QEvent.terminal 1]⟩ :=
    QStep.finish _ 1 rfl
  have h6 : QStep ⟨[2], none, [1, 2], [QEvent.stage 1, QEvent.terminal 1]⟩
      ⟨[], some 2, [1, 2], [QEvent.stage 1, QEvent.terminal 1]⟩ :=
    QStep.start _ 2 [] rfl rfl
  have h7 : QStep ⟨[], some 2, [1, 2], [QEvent.stage 1, QEvent.terminal 1]⟩ c3FinalState :=
    QStep.emit _ 2 rfl
  exact ((((((Relation.ReflTransGen.refl.tail h1).tail h2).tail h3).tail h4).tail
    h5).tail h6).tail h7

/-- C3 witness: the serialization property instantiated on the concrete
two-job run. -/
theorem c3_single_worker_fifo_witness :
    (∃ started, c3FinalState.submitted = started ++ c3FinalState.jobQueue)
    ∧ ((∀ e ∈ c3FinalState.log, e.job ≠ 2)
        ∨ ∃ l₁ l₂, c3FinalState.log = l₁ ++ QEvent.terminal 1 :: l₂
            ∧ ∀ e ∈ l₁, e.job ≠ 2) :=
  c3_single_worker_fifo c3FinalState_reachable (by decide) (List.Sublist.refl _)

/-- C6 counterexample: a job whose compose stage fails emits the progress
values 10, 30, 50, 70, 85 and then an `error` notification carrying
progress 0 — so, taken over EVERY job, progress values are not
monotonically non-decreasing and the emitted stage sequence does not end
in `complete`. -/
theorem c6_counterexample :
    (executeJob envC6).statuses.map ProcessingStatus.progress = [10, 30, 50, 70, 85, 0]
    ∧ ¬ List.Chain' (· ≤ ·) ((executeJob envC6).statuses.map ProcessingStatus.progress)
    ∧ (executeJob envC6).statuses.map ProcessingStatus.stage
        = [.analyzing, .generating_tts, .generating_music, .generating_video,
           .composing, .error]
    ∧ (executeJob envC6).outcome = ProcessingStage.error := by
  refine ⟨rfl, ?_, rfl, rfl⟩
  rw [show (executeJob envC6).statuses.map ProcessingStatus.progress
      = [10, 30, 50, 70, 85, 0] from rfl]
  simp [List.chain'_cons]

/-- C6 (amended): for every job that reaches `complete`, the seven
progress notifications are emitted in the stage order `analyzing →
generating_tts → generating_music → generating_video → composing →
composing → complete` with monotonically non-decreasing progress values
(10, 30, 50, 70, 85, 95, 100), and every notification persists the status
and then invokes the registered callback as an adjacent pair of events
(persist at position 2i, callback at position 2i+1); a failing job
instead emits an ordered prefix followed by a terminal `error`
notification with progress 0. -/
theorem c6_progress_order (env : JobEnv)
    (hc : (executeJob env).outcome = ProcessingStage.complete) :
    (executeJob env).statuses.map ProcessingStatus.stage
      = [.analyzing, .generating_tts, .generating_music, .generating_video,
         .composing, .composing, .complete]
    ∧ (executeJob env).statuses.map ProcessingStatus.progress
        = [10, 30, 50, 70, 85, 95, 100]
    ∧ List.Chain' (· ≤ ·) ((executeJob env).statuses.map ProcessingStatus.progress)
    ∧ (∀ i : Nat,
        (jobEvents env)[2 * i]? = ((executeJob env).statuses[i]?).map StatusEvent.persist
        ∧ (jobEvents env)[2 * i + 1]?
            = ((executeJob env).statuses[i]?).map StatusEvent.callback) := by
  obtain ⟨h1, h2, h3, h4⟩ := (executeJob_complete_iff env).mp hc
  have hst := executeJob_statuses env h1 h2 h3 h4
  refine ⟨by rw [hst]; rfl, by rw [hst]; rfl, ?_, ?_⟩
  · rw [hst]
    simp [List.chain'_cons]
  · intro i
    exact jobEvents_pairing (executeJob env).statuses i

/-- C6 witness on a concrete completing job. -/
theorem c6_progress_order_witness :
    (executeJob envC6W).statuses.map ProcessingStatus.stage
      = [.analyzing, .generating_tts, .generating_music, .generating_video,
         .composing, .composing, .complete]
    ∧ (executeJob envC6W).statuses.map ProcessingStatus.progress
        = [10, 30, 50, 70, 85, 95, 100]
    ∧ List.Chain' (· ≤ ·) ((executeJob envC6W).statuses.map ProcessingStatus.progress)
    ∧ (∀ i : Nat,
        (jobEvents envC6W)[2 * i]? = ((executeJob envC6W).statuses[i]?).map StatusEvent.persist
        ∧ (jobEvents envC6W)[2 * i + 1]?
            = ((executeJob envC6W).statuses[i]?).map StatusEvent.callback) :=
  c6_progress_order envC6W rfl

/-- C8: if the upload to durable storage fails after a successful
compose, the job still transitions to `complete` with progress 100, the
locally composed asset is kept, and `getVideoPath` resolves it — upload
failure is never fatal to job success. -/
theorem c8_upload_failure_nonfatal (env : JobEnv) (h1 : env.probeFails = false)
    (h2 : env.musicFails = false) (h3 : env.soraFails = false)
    (h4 : env.composeFails = false) (h5 : env.uploadFails = true) :
    (executeJob env).outcome = ProcessingStage.complete
    ∧ (executeJob env).statuses.getLast?
        = some ⟨.complete, 100, "Video generation complete", none⟩
    ∧ (env.projectId ++ "_final.mp4") ∈ (executeJob env).localFiles
    ∧ getVideoPath (executeJob env) env.projectId = some (env.projectId ++ "_final.mp4")
    ∧ (executeJob env).uploadedToDrive = false := by
  have hlf : (executeJob env).localFiles = [env.projectId ++ "_final.mp4"] := by
    rw [executeJob_localFiles env h1 h2 h3 h4, if_pos h5]
  refine ⟨(executeJob_complete_iff env).mpr ⟨h1, h2, h3, h4⟩, ?_, ?_, ?_, ?_⟩
  · rw [executeJob_statuses env h1 h2 h3 h4]
    rfl
  · rw [hlf]
    exact List.mem_singleton.mpr rfl
  · rw [getVideoPath, if_pos]
    rw [hlf]
    exact List.mem_singleton.mpr rfl
  · rw [executeJob_uploadedToDrive env h1 h2 h3 h4, h5]
    rfl

/-- C8 witness on a concrete job with a failing upload. -/
theorem c8_upload_failure_nonfatal_witness :
    (executeJob envC8).outcome = ProcessingStage.complete
    ∧ (executeJob envC8).statuses.getLast?
        = some ⟨.complete, 100, "Video generation complete", none⟩
    ∧ (envC8.projectId ++ "_final.mp4") ∈ (executeJob envC8).localFiles
    ∧ getVideoPath (executeJob envC8) envC8.projectId
        = some (envC8.projectId ++ "_final.mp4")
    ∧ (executeJob envC8).uploadedToDrive = false :=
  c8_upload_failure_nonfatal envC8 rfl rfl rfl rfl rfl

/-- C5 counterexample: for the (non-whitespace) script `"Hi."` and the
positive total duration 0.5s, the single produced caption has start time
0.5 but clamped end time 0.3 — its start is NOT strictly before its end,
refuting the claim for every positive total duration. -/
theorem c5_counterexample :
    (0:ℚ) < 1/2
    ∧ trim hiScript ≠ []
    ∧ calculateTiming (splitIntoSegments hiScript) (1/2)
        = [{ text := hiScript, startTime := 1/2, endTime := 3/10 }]
    ∧ ¬ ((1/2:ℚ) < 3/10) := by
  have hseg : splitIntoSegments hiScript = [hiScript] := by decide
  have hwc : wordCountJS hiScript = 1 := by decide
  have hdurs : calcDurations [hiScript] (1/2) = [1] := by
    rw [calcDurations]
    simp only [List.map_cons, List.map_nil, hwc, List.foldl_cons, List.foldl_nil]
    norm_num [startBuffer, endBuffer, minSegmentDuration, minScaledDuration, max_def]
  refine ⟨by norm_num, by decide, ?_, by norm_num⟩
  rw [hseg, calculateTiming, if_neg (by norm_num), hdurs]
  rw [show ([hiScript].zip [(1:ℚ)]) = [(hiScript, 1)] from rfl]
  rw [buildTimed, buildTimed]
  norm_num [startBuffer, endBuffer, subtitleOverlap, min_def]

/-- C5 (amended): for every script containing a non-whitespace character
and every positive total duration, the segmenter produces at least one
caption; the first caption starts exactly at the 0.5s start buffer; every
caption ends no later than `totalDuration - 0.2`; start times strictly
increase and end times never decrease; and a caption's start is strictly
before its end exactly when its start lies strictly below
`totalDuration - 0.2` — for short total durations the clamped end can
fall at or before the start. -/
theorem c5_caption_timing (script : List Char) (totalDuration : ℚ)
    (hscript : trim script ≠ []) (hdur : 0 < totalDuration) :
    calculateTiming (splitIntoSegments script) totalDuration ≠ []
    ∧ (∀ sg, (calculateTiming (splitIntoSegments script) totalDuration).head? = some sg →
        sg.startTime = startBuffer)
    ∧ (∀ sg ∈ calculateTiming (splitIntoSegments script) totalDuration,
        sg.endTime ≤ totalDuration - endBuffer)
    ∧ List.Chain' (fun a b => a.startTime < b.startTime ∧ a.endTime ≤ b.endTime)
        (calculateTiming (splitIntoSegments script) totalDuration)
    ∧ (∀ sg ∈ calculateTiming (splitIntoSegments script) totalDuration,
        (sg.startTime < sg.endTime ↔ sg.startTime < totalDuration - endBuffer)) := by
  obtain ⟨c, hc, hws⟩ := exists_not_ws_of_trim_ne_nil hscript
  have hseg : splitIntoSegments script ≠ [] := splitIntoSegments_ne_nil hc hws
  have hne := calculateTiming_ne_nil hseg hdur
  have hguard : ¬((splitIntoSegments script).isEmpty = true ∨ totalDuration ≤ 0) := by
    push_neg
    exact ⟨by simpa using hseg, by linarith⟩
  have hpairs : ∀ p ∈ (splitIntoSegments script).zip
      (calcDurations (splitIntoSegments script) totalDuration), minScaledDuration ≤ p.2 := by
    intro p hp
    exact calcDurations_lower _ totalDuration p.2 (List.of_mem_zip hp).2
  have hct : calculateTiming (splitIntoSegments script) totalDuration
      = buildTimed totalDuration ((splitIntoSegments script).zip
          (calcDurations (splitIntoSegments script) totalDuration)) startBuffer := by
    rw [calculateTiming, if_neg hguard]
  refine ⟨hne, ?_, ?_, ?_, ?_⟩
  · intro sg hsg
    rw [hct] at hsg
    obtain ⟨x, xs, hx⟩ := List.exists_cons_of_ne_nil hseg
    have hdlen : (calcDurations (splitIntoSegments script) totalDuration).length
        = (splitIntoSegments script).length := calcDurations_length _ _
    obtain ⟨dd, ds, hd2⟩ : ∃ dd ds,
        calcDurations (splitIntoSegments script) totalDuration = dd :: ds := by
      rcases hcd : calcDurations (splitIntoSegments script) totalDuration with _ | ⟨dd, ds⟩
      · rw [hcd, hx] at hdlen
        simp at hdlen
      · exact ⟨dd, ds, rfl⟩
    rw [hx] at hd2
    rw [hx, hd2, List.zip_cons_cons, buildTimed, List.head?_cons, Option.some.injEq] at hsg
    rw [← hsg]
  · intro sg hsg
    rw [hct] at hsg
    exact buildTimed_endTime_le totalDuration _ _ sg hsg
  · rw [hct]
    exact buildTimed_chain totalDuration _ _ hpairs
  · intro sg hsg
    rw [hct] at hsg
    exact buildTimed_start_lt_end_iff totalDuration _ _ hpairs sg hsg

/-- C5 witness: the script `"Hello world."` over a 10-second narration. -/
theorem c5_caption_timing_witness :
    calculateTiming (splitIntoSegments "Hello world.".data) 10 ≠ []
    ∧ (∀ sg, (calculateTiming (splitIntoSegments "Hello world.".data) 10).head? = some sg →
        sg.startTime = startBuffer)
    ∧ (∀ sg ∈ calculateTiming (splitIntoSegments "Hello world.".data) 10,
        sg.endTime ≤ 10 - endBuffer)
    ∧ List.Chain' (fun a b => a.startTime < b.startTime ∧ a.endTime ≤ b.endTime)
        (calculateTiming (splitIntoSegments "Hello world.".data) 10)
    ∧ (∀ sg ∈ calculateTiming (splitIntoSegments "Hello world.".data) 10,
        (sg.startTime < sg.endTime ↔ sg.startTime < 10 - endBuffer)) :=
  c5_caption_timing "Hello world.".data 10 (by decide) (by norm_num)

/-- C7 counterexample: for the six-word script `"a b c d e f"` the
word-count estimate is `6 / 2.5 = 2.4` seconds, but the silent fallback
is sized to `estimation.targetDuration`, the 4-second clip tier — not to
the raw estimate — refuting the claim that the silence duration equals
word count divided by 2.5. -/
theorem c7_counterexample :
    wordCountTrim "a b c d e f".data = 6
    ∧ ((wordCountTrim "a b c d e f".data : ℚ) / (5/2)) = 12/5
    ∧ (estimateSpeechDuration "a b c d e f".data).targetDuration = 4
    ∧ (4:ℚ) ≠ 12/5 := by
  have hwc : wordCountTrim "a b c d e f".data = 6 := by decide
  refine ⟨hwc, by rw [hwc]; norm_num, ?_, by norm_num⟩
  rw [estimateSpeechDuration, hwc, decideSoraDuration_targetDuration]
  have hr : round10 ((6:ℕ) / (5/2) : ℚ) = 12/5 := by
    rw [round10, jsRound]
    norm_num
  rw [hr]
  norm_num

/-- C7 (amended): the silent fallback audio is synthesized with duration
equal to the clip tier chosen by the duration policy from the word-count
estimate (word count divided by the fixed 2.5 words-per-second rate),
i.e. the smallest tier at or above the rounded estimate, not the raw
estimate itself; the orchestrator uses exactly this value whenever the
silent source is selected. -/
theorem c7_silent_fallback_duration (script : List Char) :
    (estimateSpeechDuration script).targetDuration ∈ soraTiers
    ∧ (round10 ((wordCountTrim script : ℚ) / (5/2)) ≤ 12 →
        round10 ((wordCountTrim script : ℚ) / (5/2))
            ≤ (estimateSpeechDuration script).targetDuration
        ∧ ∀ t ∈ soraTiers, round10 ((wordCountTrim script : ℚ) / (5/2)) ≤ t →
            (estimateSpeechDuration script).targetDuration ≤ t)
    ∧ (12 < round10 ((wordCountTrim script : ℚ) / (5/2)) →
        (estimateSpeechDuration script).targetDuration = 12)
    ∧ (∀ env : JobEnv, ttsSource env = TTSSource.silence →
        ttsFileDuration env = (estimateSpeechDuration env.script).targetDuration) := by
  obtain ⟨hmem, hmin, hcap, -, -, -⟩ :=
    decideSoraDuration_spec ((wordCountTrim script : ℚ) / (5/2))
  refine ⟨hmem, hmin, hcap, ?_⟩
  intro env hsrc
  rw [ttsFileDuration, hsrc]

/-- C7 witness at the six-word script. -/
theorem c7_silent_fallback_duration_witness :
    (estimateSpeechDuration "a b c d e f".data).targetDuration ∈ soraTiers
    ∧ (round10 ((wordCountTrim "a b c d e f".data : ℚ) / (5/2)) ≤ 12 →
        round10 ((wordCountTrim "a b c d e f".data : ℚ) / (5/2))
            ≤ (estimateSpeechDuration "a b c d e f".data).targetDuration
        ∧ ∀ t ∈ soraTiers, round10 ((wordCountTrim "a b c d e f".data : ℚ) / (5/2)) ≤ t →
            (estimateSpeechDuration "a b c d e f".data).targetDuration ≤ t)
    ∧ (12 < round10 ((wordCountTrim "a b c d e f".data : ℚ) / (5/2)) →
        (estimateSpeechDuration "a b c d e f".data).targetDuration = 12)
    ∧ (∀ env : JobEnv, ttsSource env = TTSSource.silence →
        ttsFileDuration env = (estimateSpeechDuration env.script).targetDuration) :=
  c7_silent_fallback_duration "a b c d e f".data

/-- C9 counterexample: the mix uses `duration=first`, so with a 5-second
speech track and a 2-second music track the mix is 5 seconds long — the
length of the FIRST input (speech), not of the shorter input (music). -/
theorem c9_counterexample :
    amixOutputDuration composeAudioFilter c9Lens = 5
    ∧ min (c9Lens AudioSrc.speech) (c9Lens AudioSrc.music) = 2
    ∧ (5:ℚ) ≠ 2 := by
  refine ⟨rfl, ?_, by norm_num⟩
  show min (5:ℚ) 2 = 2
  norm_num [min_def]

/-- C9 (amended): the compositing audio mix takes exactly the speech
track (full weight 1) and the music track (fixed attenuated weight 0.2),
never the background video's own audio stream, and is truncated to its
FIRST input — the speech track — so the mix length always equals the
speech length, which coincides with the shorter input whenever the music
is at least as long as the speech (as the upstream sizing guarantees). -/
theorem c9_audio_mix :
    composeAudioFilter.inputs = [AudioSrc.speech, AudioSrc.music]
    ∧ AudioSrc.bgVideo ∉ composeAudioFilter.inputs
    ∧ composeAudioFilter.weights = [1, 1/5]
    ∧ composeAudioFilter.durationMode = AmixDuration.first
    ∧ (∀ len : AudioSrc → ℚ, amixOutputDuration composeAudioFilter len = len AudioSrc.speech)
    ∧ (∀ len : AudioSrc → ℚ, len AudioSrc.speech ≤ len AudioSrc.music →
        amixOutputDuration composeAudioFilter len
          = min (len AudioSrc.speech) (len AudioSrc.music)) := by
  refine ⟨rfl, by decide, rfl, rfl, fun len => rfl, ?_⟩
  intro len h
  rw [min_eq_left h]
  rfl

/-- C9 witness: the mix-length equations at concrete stream lengths 3
(speech) and 4 (music). -/
theorem c9_audio_mix_witness :
    amixOutputDuration composeAudioFilter
        (fun a => match a with | AudioSrc.speech => 3 | AudioSrc.music => 4 | AudioSrc.bgVideo => 9)
      = min ((3:ℚ)) 4 := by
  have h := (c9_audio_mix).2.2.2.2.2
    (fun a => match a with | AudioSrc.speech => 3 | AudioSrc.music => 4 | AudioSrc.bgVideo => 9)
    (by norm_num)
  simpa using h

/-- C10: a completing job skips the subtitle file exactly when the script
is whitespace-only, and in that case the compositing step falls back to
the static truncated-text overlay instead of failing. -/
theorem c10_empty_script_static_fallback (env : JobEnv) (hpos : 0 < env.ttsRealDuration)
    (h1 : env.probeFails = false) (h2 : env.musicFails = false)
    (h3 : env.soraFails = false) (h4 : env.composeFails = false) :
    (∀ (s : List Char) (d : ℚ), 0 < d → (generateSubtitleFile s d = none ↔ trim s = []))
    ∧ ((executeJob env).subtitle = none ↔ trim env.script = [])
    ∧ ((executeJob env).subtitle = none →
        (executeJob env).overlay = SubtitleOverlay.staticText (jsTruncate100 env.script))
    ∧ (executeJob env).outcome = ProcessingStage.complete := by
  have hsub := executeJob_subtitle env h1 h2 h3 h4
  have hpos' : 0 < getAudioDuration (ttsFileDuration env) :=
    getAudioDuration_pos (ttsFileDuration_pos env hpos)
  refine ⟨fun s d hd => generateSubtitleFile_eq_none_iff s hd, ?_, ?_,
    (executeJob_complete_iff env).mpr ⟨h1, h2, h3, h4⟩⟩
  · rw [hsub]
    exact generateSubtitleFile_eq_none_iff env.script hpos'
  · intro hnone
    rw [executeJob_overlay env h1 h2 h3 h4, hnone]
    rfl

/-- C10 witness on the whitespace-only script. -/
theorem c10_empty_script_static_fallback_witness :
    (∀ (s : List Char) (d : ℚ), 0 < d → (generateSubtitleFile s d = none ↔ trim s = []))
    ∧ ((executeJob envC10).subtitle = none ↔ trim envC10.script = [])
    ∧ ((executeJob envC10).subtitle = none →
        (executeJob envC10).overlay = SubtitleOverlay.staticText (jsTruncate100 envC10.script))
    ∧ (executeJob envC10).outcome = ProcessingStage.complete :=
  c10_empty_script_static_fallback envC10 (by norm_num [envC10]) rfl rfl rfl rfl

end VideoGen

